import Mathlib

/-!
# MPFC window library: message queue, handler chains, dialog items, input plugins

A shallow embedding of `src/libmpfcwnd/wnd_msg.c`, `src/libmpfcwnd/wnd_dlgitem.c`, the
coordinate macros of `src/libmpfcwnd/wnd.h` and the accessors of `src/libmpfc/plugin_input.c`.

Pointers are `Option Nat` (`none` is `NULL`); every kind of heap object lives in its own
memory, a function from addresses to `Option` of the object (`none`: nothing is allocated
there).  A C function that can dereference a pointer returns `Except Fault _`, so that a
`NULL` or dangling dereference, a failed `assert`, or a second lock of the queue mutex is an
explicit outcome rather than a silent success.  `malloc` is modelled by passing the pointer it
returns (`none` on failure) as an extra argument; the allocations made inside the calls of
`dlgitem_construct` (base window, handler records, `strdup`) are passed as a record of their
outcomes.  The `int` additions of the coordinate macros are 32-bit two's complement
(`int_add`): a sum outside the range of `int` wraps by `2^32`.
-/

set_option autoImplicit false

namespace Mpfc

/-! ## Part 1: definitions -/

/-- The ways in which a call fails to return normally. -/
inductive Fault
  | assertion
  | invalid_access
  | deadlock
  | unlock_free
  | out_of_fuel
deriving DecidableEq, Repr

/-! ### Message queue (`wnd_msg.c`) -/

/-- Message payload, as used by `wnd_msg_free`: a data pointer and a destructor pointer. -/
structure wnd_msg_data_t where
  m_data : Option Nat
  m_destructor : Option Nat
deriving DecidableEq, Repr

/-- A message: target window, type tag, payload (`node->m_msg.m_wnd`, `.m_type`, `.m_data`). -/
structure wnd_msg_t where
  m_wnd : Option Nat
  m_type : Nat
  m_data : wnd_msg_data_t
deriving DecidableEq, Repr

/-- A node of the doubly linked queue (`struct wnd_msg_queue_item_t`). -/
structure wnd_msg_queue_item_t where
  m_msg : wnd_msg_t
  m_next : Option Nat
  m_prev : Option Nat
deriving DecidableEq, Repr

/-- The queue header (`wnd_msg_queue_t`); `m_mutex` is `true` while the mutex is held. -/
structure wnd_msg_queue_t where
  m_base : Option Nat
  m_last : Option Nat
  m_mutex : Bool
deriving DecidableEq, Repr

/-- The memory a queue operation works on: the queue header and the queue nodes. -/
structure MsgHeap where
  queue : wnd_msg_queue_t
  items : Nat → Option wnd_msg_queue_item_t

/-- Function `wnd_msg_queue_init`: `NULL` when the header cannot be allocated, otherwise an empty
queue with a fresh (free) mutex. -/
def wnd_msg_queue_init (alloc_ok : Bool) : Option wnd_msg_queue_t :=
  if alloc_ok then some { m_base := none, m_last := none, m_mutex := false } else none

/-- Read of `*p` for a node pointer `p`. -/
def item_load (s : MsgHeap) (p : Option Nat) : Except Fault wnd_msg_queue_item_t :=
  match p with
  | none => .error .invalid_access
  | some a =>
    match s.items a with
    | none => .error .invalid_access
    | some it => .ok it

/-- Write of the whole node at address `a`. -/
def item_store (s : MsgHeap) (a : Nat) (it : wnd_msg_queue_item_t) : MsgHeap :=
  { s with items := Function.update s.items a (some it) }

/-- The assignment `p->m_prev = v`. -/
def item_set_prev (s : MsgHeap) (p : Option Nat) (v : Option Nat) : Except Fault MsgHeap :=
  match item_load s p, p with
  | .ok it, some a => .ok (item_store s a { it with m_prev := v })
  | .ok _, none => .error .invalid_access
  | .error e, _ => .error e

/-- The assignment `p->m_next = v`. -/
def item_set_next (s : MsgHeap) (p : Option Nat) (v : Option Nat) : Except Fault MsgHeap :=
  match item_load s p, p with
  | .ok it, some a => .ok (item_store s a { it with m_next := v })
  | .ok _, none => .error .invalid_access
  | .error e, _ => .error e

/-- The call `free(p)` for a node pointer. -/
def item_free (s : MsgHeap) (p : Option Nat) : Except Fault MsgHeap :=
  match item_load s p, p with
  | .ok _, some a => .ok { s with items := Function.update s.items a none }
  | .ok _, none => .error .invalid_access
  | .error e, _ => .error e

/-- Function `wnd_msg_lock_queue`: `pthread_mutex_lock` on a default (non-recursive) mutex. -/
def wnd_msg_lock_queue (s : MsgHeap) : Except Fault MsgHeap :=
  if s.queue.m_mutex then .error .deadlock
  else .ok { s with queue := { s.queue with m_mutex := true } }

/-- Function `wnd_msg_unlock_queue`: `pthread_mutex_unlock`. -/
def wnd_msg_unlock_queue (s : MsgHeap) : Except Fault MsgHeap :=
  if s.queue.m_mutex then .ok { s with queue := { s.queue with m_mutex := false } }
  else .error .unlock_free

/-- Function `wnd_msg_rem`: unlink `item` from the queue and free it, under the queue lock.
The queue pointer is the header of the memory `s` (`assert(queue)` holds). -/
def wnd_msg_rem (s : MsgHeap) (item : Option Nat) : Except Fault MsgHeap := do
  if item = none then throw Fault.assertion
  let s ← wnd_msg_lock_queue s
  let it ← item_load s item
  let s ←
    if it.m_next ≠ none then item_set_prev s it.m_next it.m_prev
    else pure { s with queue := { s.queue with m_last := it.m_prev } }
  let it ← item_load s item
  let s ←
    if it.m_prev ≠ none then item_set_next s it.m_prev it.m_next
    else pure { s with queue := { s.queue with m_base := it.m_next } }
  let s ← item_free s item
  wnd_msg_unlock_queue s

/-- Function `wnd_msg_get`: the result is the returned flag, the contents of `*msg` after the call
(`msg` are its contents before the call) and the memory after the call. -/
def wnd_msg_get (s : MsgHeap) (msg : wnd_msg_t) : Except Fault (Bool × wnd_msg_t × MsgHeap) := do
  if s.queue.m_base = none then return (false, msg, s)
  let it ← item_load s s.queue.m_base
  let msg := it.m_msg
  let s ← wnd_msg_rem s s.queue.m_base
  return (true, msg, s)

/-- Function `wnd_msg_send` on the queue of the window `wnd`, which is the header of the
memory `s` (`WND_GLOBAL(wnd)` and `WND_MSG_QUEUE(wnd)` are not `NULL`); `node` is what `malloc`
returns for the new queue node, whose fields are all assigned before the node is linked. -/
def wnd_msg_send (s : MsgHeap) (wnd : Option Nat) (type : Nat) (data : wnd_msg_data_t)
    (node : Option Nat) : Except Fault MsgHeap := do
  if wnd = none then throw Fault.assertion
  let s ← wnd_msg_lock_queue s
  match node with
  | none => throw Fault.invalid_access
  | some a =>
    let s := item_store s a
      { m_msg := { m_wnd := wnd, m_type := type, m_data := data }, m_next := none, m_prev := none }
    let s ←
      if s.queue.m_last = none then
        pure { s with queue := { s.queue with m_base := some a, m_last := some a } }
      else do
        let s ← item_set_next s s.queue.m_last (some a)
        let s ← item_set_prev s (some a) s.queue.m_last
        pure { s with queue := { s.queue with m_last := some a } }
    wnd_msg_unlock_queue s

/-- The loop of `wnd_msg_queue_remove_by_window`, started at `item`; each iteration uses one
unit of `fuel`.  `desc` stands for `wnd_is_descendant`. -/
def remove_by_window_loop (desc : Option Nat → Option Nat → Bool) (wnd : Option Nat)
    (with_descendants : Bool) : Nat → MsgHeap → Option Nat → Except Fault MsgHeap
  | _, s, none => .ok s
  | 0, _, some _ => .error .out_of_fuel
  | fuel + 1, s, some a => do
    let it ← item_load s (some a)
    let target := it.m_msg.m_wnd
    if target = wnd || (with_descendants && desc wnd target) then
      let prev := it.m_prev
      let s ← wnd_msg_rem s (some a)
      if prev = none then
        remove_by_window_loop desc wnd with_descendants fuel s s.queue.m_base
      else do
        let p ← item_load s prev
        remove_by_window_loop desc wnd with_descendants fuel s p.m_next
    else
      remove_by_window_loop desc wnd with_descendants fuel s it.m_next

/-- Function `wnd_msg_queue_remove_by_window`; `desc` stands for `wnd_is_descendant` and
`fuel` bounds the number of loop iterations. -/
def wnd_msg_queue_remove_by_window (desc : Option Nat → Option Nat → Bool) (fuel : Nat)
    (s : MsgHeap) (wnd : Option Nat) (with_descendants : Bool) : Except Fault MsgHeap := do
  if wnd = none then throw Fault.assertion
  remove_by_window_loop desc wnd with_descendants fuel s s.queue.m_base

/-- The address of the first node of `l`, or `nxt` when `l` is empty. -/
def firstAddr (nxt : Option Nat) : List (Nat × wnd_msg_t) → Option Nat
  | [] => nxt
  | (a, _) :: _ => some a

/-- The address of the last node of `l`, or `prev` when `l` is empty. -/
def lastAddr : Option Nat → List (Nat × wnd_msg_t) → Option Nat
  | prev, [] => prev
  | _, (a, _) :: rest => lastAddr (some a) rest

/-- Linked segment `Seg m prev l first last nxt`: in the node memory `m` the nodes listed in
`l` (address and message, head first) are linked in that order; `first` points to the first of
them, the first one has `m_prev = prev`, the last one has `m_next = nxt`, and `last` points to
the last one (for an empty `l`: `first = nxt` and `last = prev`). -/
def Seg (m : Nat → Option wnd_msg_queue_item_t) :
    Option Nat → List (Nat × wnd_msg_t) → Option Nat → Option Nat → Option Nat → Prop
  | prev, [], first, last, nxt => first = nxt ∧ last = prev
  | prev, (a, msg) :: rest, first, last, nxt =>
    first = some a ∧
      ∃ n, m a = some { m_msg := msg, m_next := n, m_prev := prev } ∧ Seg m (some a) rest n last nxt

/-- Well-formed queue holding exactly the nodes `l` (address and message, head first): the
mutex is free, the nodes are pairwise distinct, `m_base` points to the first node whose
`m_prev` is `NULL`, following `m_next` visits the nodes of `l` in order, each node's `m_prev`
is its predecessor, the last node has `m_next = NULL` and `m_last` points to it. -/
structure QueueRep (s : MsgHeap) (l : List (Nat × wnd_msg_t)) : Prop where
  mutex_free : s.queue.m_mutex = false
  nodup : (l.map Prod.fst).Nodup
  seg : Seg s.items none l s.queue.m_base s.queue.m_last none

/-- The test of the purge loop on one message: `target == wnd || (with_descendants &&
wnd_is_descendant(wnd, target))`. -/
def purge_match (desc : Option Nat → Option Nat → Bool) (wnd : Option Nat)
    (with_descendants : Bool) (msg : wnd_msg_t) : Bool :=
  decide (msg.m_wnd = wnd) || (with_descendants && desc wnd msg.m_wnd)

/-- A producer run: the entries of `l` are sent in order with `wnd_msg_send`; an entry is the
address `malloc` returns for the node, and the message (window, type, payload) to send. -/
def send_all : MsgHeap → List (Nat × wnd_msg_t) → Except Fault MsgHeap
  | s, [] => .ok s
  | s, (a, msg) :: rest => do
    let s ← wnd_msg_send s msg.m_wnd msg.m_type msg.m_data (some a)
    send_all s rest

/-- A consumer run: `k` successive calls of `wnd_msg_get`, each on the message buffer left by
the previous one; the list holds, per call, the returned flag and the buffer after the call. -/
def get_n : Nat → MsgHeap → wnd_msg_t → Except Fault (List (Bool × wnd_msg_t) × MsgHeap)
  | 0, s, _ => .ok ([], s)
  | k + 1, s, out => do
    let r ← wnd_msg_get s out
    let rs ← get_n k r.2.2 r.2.1
    return ((r.1, r.2.1) :: rs.1, rs.2)

/-- The messages reached from `m_base` by following `m_next` (at most `fuel` nodes). -/
def queue_messages (s : MsgHeap) : Nat → Option Nat → List wnd_msg_t
  | 0, _ => []
  | _ + 1, none => []
  | fuel + 1, some a =>
    match s.items a with
    | none => []
    | some it => it.m_msg :: queue_messages s fuel it.m_next

/-! ### Handler chains (`wnd_msg.c`) -/

/-- A handler record: the handler function pointer and the next record of the chain. -/
structure wnd_msg_handler_t where
  m_func : Option Nat
  m_next : Option Nat
deriving DecidableEq, Repr

/-- The memory a chain operation works on: the chain slot `*chain` and the handler records. -/
structure HandlerHeap where
  chain : Option Nat
  handlers : Nat → Option wnd_msg_handler_t

/-- Function `wnd_msg_add_handler(chain, h)` of `wnd_msg.c`; `handler` is what `malloc` returns for the record. -/
def wnd_msg_add_handler (s : HandlerHeap) (h : Option Nat) (handler : Option Nat) :
    Except Fault HandlerHeap := do
  if h = none then throw Fault.assertion
  match handler with
  | none => throw Fault.assertion
  | some a =>
    if s.chain = none then
      return { chain := some a,
               handlers := Function.update s.handlers a (some { m_func := h, m_next := none }) }
    else
      return { chain := some a,
               handlers := Function.update s.handlers a (some { m_func := h, m_next := s.chain }) }

/-- Function `wnd_msg_add_handler(chain, h)` of `wnd_msg.c`, statement by statement, with the
memory in which the call ends beside its outcome (`none`: the call returns; `some e`: it stops
at the fault `e`).  The statements run in the order of the source: `assert(h)`, the `malloc`
whose result is `handler`, `assert(handler)`, and only then the writes `handler->m_func = h`,
`handler->m_next = ...` and `*chain = handler`.  A statement that faults leaves the memory as
the statements before it made it. -/
def wnd_msg_add_handler_mem (s : HandlerHeap) (h : Option Nat) (handler : Option Nat) :
    HandlerHeap × Option Fault :=
  if h = none then (s, some Fault.assertion)
  else
    match handler with
    | none => (s, some Fault.assertion)
    | some a =>
      let s1 : HandlerHeap :=
        { chain := s.chain,
          handlers := Function.update s.handlers a (some { m_func := h, m_next := none }) }
      if s1.chain = none then
        ({ chain := some a, handlers := s1.handlers }, none)
      else
        let s2 : HandlerHeap :=
          { chain := s1.chain,
            handlers := Function.update s1.handlers a (some { m_func := h, m_next := s1.chain }) }
        ({ chain := some a, handlers := s2.handlers }, none)

/-- Function `wnd_msg_rem_handler(chain)`: the head record is freed and the slot moves on
to its successor. -/
def wnd_msg_rem_handler (s : HandlerHeap) : Except Fault HandlerHeap :=
  match s.chain with
  | none => .error .assertion
  | some a =>
    match s.handlers a with
    | none => .error .invalid_access
    | some hd => .ok { chain := hd.m_next, handlers := Function.update s.handlers a none }

/-- Registration of the handlers of `l` in order; an entry is the address `malloc` returns
for the record, and the handler function. -/
def add_all_handlers : HandlerHeap → List (Nat × Option Nat) → Except Fault HandlerHeap
  | s, [] => .ok s
  | s, (a, h) :: rest => do
    let s ← wnd_msg_add_handler s h (some a)
    add_all_handlers s rest

/-- Linked chain `ChainLinks m l head`: `head` points to the first record listed in `l` (address and
handler function), every record's `m_next` points to the following one, the last has
`m_next = NULL`. -/
def ChainLinks (m : Nat → Option wnd_msg_handler_t) : List (Nat × Option Nat) → Option Nat → Prop
  | [], head => head = none
  | (a, f) :: rest, head =>
    head = some a ∧ ∃ n, m a = some { m_func := f, m_next := n } ∧ ChainLinks m rest n

/-- A well-formed handler chain holding exactly the records `l`, head first. -/
structure ChainRep (s : HandlerHeap) (l : List (Nat × Option Nat)) : Prop where
  nodup : (l.map Prod.fst).Nodup
  links : ChainLinks s.handlers l s.chain

/-! ### Windows and dialog items (`wnd.h`, `wnd_dlgitem.c`) -/

/-- Current window mode (`wnd_mode_t`). -/
inductive wnd_mode_t
  | WND_MODE_NORMAL
  | WND_MODE_REPOSITION
  | WND_MODE_RESIZE
deriving DecidableEq, Repr

/-- Modelled from the spec: the handler return codes are declared in `wnd_msg.h`, which is
not among the sources; these are the two codes the sources name, distinct constants of one
enumeration (spec 4.2: a handler handles the message or passes it on to the parent). -/
inductive wnd_msg_retcode_t
  | WND_MSG_RETCODE_OK
  | WND_MSG_RETCODE_PASS_TO_PARENT
deriving DecidableEq, Repr

/-- Modelled from the spec: the handler functions a chain of a window may hold; the chains of
the three-argument `wnd_msg_add_handler(wnd, name, handler)` used by `wnd_dlgitem.c` are not
declared in the sources. -/
inductive wnd_handler_fn
  | dlgitem_on_keydown
  | dlgitem_destructor
  | other (id : Nat)
deriving DecidableEq, Repr

/-- The window part of an object: the fields of `wnd_t` the embedded functions read or write.
`m_class_name` is `m_class->m_name`; `m_children` is the children collection (`m_child` and
the sibling links); the two chains are `m_on_keydown` and `m_destructor`, head first. -/
structure wnd_t where
  m_title : Option String
  m_flags : Nat
  m_parent : Option Nat
  m_children : List Nat
  m_on_keydown : List wnd_handler_fn
  m_destructor : List wnd_handler_fn
  m_x : Int
  m_y : Int
  m_screen_x : Int
  m_screen_y : Int
  m_width : Int
  m_height : Int
  m_client_x : Int
  m_client_y : Int
  m_client_w : Int
  m_client_h : Int
  m_mode : wnd_mode_t
  m_class_name : String
deriving DecidableEq, Repr

/-- The fields `dlgitem_t` adds after its window part. -/
structure dlgitem_fields where
  m_id : Option String
  m_get_size : Option Nat
  m_set_pos : Option Nat
  m_flags : Nat
  m_dialog : Option Nat
deriving DecidableEq, Repr

/-- An allocated window object: its window part and, when the object is a `dlgitem_t` (or a
type that extends it), the dialog item fields; `item = none` for an object that is only a
`wnd_t` (or another extension of it). -/
structure wnd_obj where
  wnd : wnd_t
  item : Option dlgitem_fields
deriving DecidableEq, Repr

/-- Window memory: the object at each address. -/
abbrev WndHeap := Nat → Option wnd_obj

/-- Read of `*WND_OBJ(p)`. -/
def wnd_load (h : WndHeap) (p : Option Nat) : Except Fault wnd_t :=
  match p with
  | none => .error .invalid_access
  | some a =>
    match h a with
    | none => .error .invalid_access
    | some o => .ok o.wnd

/-- Read of `*DLGITEM_OBJ(p)`: the dialog item fields of the object `p` points to; a fault
when that object has none. -/
def dlgitem_load (h : WndHeap) (p : Option Nat) : Except Fault dlgitem_fields :=
  match p with
  | none => .error .invalid_access
  | some a =>
    match h a with
    | none => .error .invalid_access
    | some o =>
      match o.item with
      | none => .error .invalid_access
      | some d => .ok d

/-- Modelled from the spec: `wnd_is_descendant(wnd, base)` is declared in `wnd.h` ("Check if
specified window is another windows descendant"), its body is not among the sources.  Spec
4.3: "`is_descendant(candidate, base)`: ancestor-chain walk".  The walk follows `m_parent`
from the candidate `wnd` and answers `TRUE` when it meets `base`, `FALSE` when it reaches the
`NULL` parent of the root; `fuel` bounds the number of steps. -/
def wnd_is_descendant (h : WndHeap) : Nat → Option Nat → Option Nat → Bool
  | 0, _, _ => false
  | fuel + 1, wnd, base =>
    match wnd_load h wnd with
    | .error _ => false
    | .ok w =>
      if w.m_parent = none then false
      else if w.m_parent = base then true
      else wnd_is_descendant h fuel w.m_parent base

/-- Window flag `WND_FLAG_BORDER = 1 << 1` (`wnd.h`). -/
def WND_FLAG_BORDER : Nat := 1 <<< 1

/-- Window flag `WND_FLAG_CAPTION = 1 << 2` (`wnd.h`). -/
def WND_FLAG_CAPTION : Nat := 1 <<< 2

/-- Modelled from the spec: the window part that the base construction leaves in a window
whose old window part is `w`, for a parent at `pa` with window part `pw` (spec 4.3 and 8, see
`wnd_construct`). -/
def wnd_base_init (w pw : wnd_t) (pa : Nat) (title : Option String) (x y width height : Int)
    (flags : Nat) : wnd_t :=
  let border : Int := if flags &&& WND_FLAG_BORDER ≠ 0 then 1 else 0
  { w with
    m_title := title, m_flags := flags, m_parent := some pa, m_children := [],
    m_on_keydown := [], m_destructor := [],
    m_x := x, m_y := y,
    m_screen_x := pw.m_screen_x + pw.m_client_x + x,
    m_screen_y := pw.m_screen_y + pw.m_client_y + y,
    m_width := width, m_height := height,
    m_client_x := border, m_client_y := border,
    m_client_w := width - 2 * border, m_client_h := height - 2 * border,
    m_mode := wnd_mode_t.WND_MODE_NORMAL }

/-- Modelled from the spec: `wnd_construct` is declared in `wnd.h`, its body is not among the
sources.  Spec 4.3: "allocates id, derives client rectangle from border/caption flags,
prepends into parent's children and z-chain (topmost), mode = NORMAL"; spec 4.3 and 7: a
non-existent parent is a fatal programming error, resource exhaustion (`avail = false`) is
reported as `FALSE` with nothing linked; spec 8: the client rectangle of a bordered window
loses one cell per side.  The arguments are in the order of the call in `dlgitem_construct`
(parent before title; the declaration in `wnd.h` has the title first).
The window identifier and the z-order are not among the fields of `wnd_t` kept here. -/
def wnd_construct (avail : Bool) (h : WndHeap) (wnd parent : Option Nat) (title : Option String)
    (x y width height : Int) (flags : Nat) : Except Fault (Bool × WndHeap) :=
  match wnd, parent with
  | some a, some pa =>
    match h a, h pa with
    | some o, some po =>
      if avail then
        let h1 : WndHeap := Function.update h pa
          (some { po with wnd := { po.wnd with m_children := a :: po.wnd.m_children } })
        .ok (true, Function.update h1 a
          (some { o with wnd := wnd_base_init o.wnd po.wnd pa title x y width height flags }))
      else .ok (false, h)
    | _, _ => .error .assertion
  | _, _ => .error .assertion

/-- How a registration of a handler ends, as far as the allocation of the handler record
goes.  `registered`: the record is allocated and linked.  `unavailable`: the allocation fails
and the registration reports it to its caller, leaving the chain as it was (spec 7: "returned
as an explicit "unavailable" result from the constructing call; no partial node is left
linked").  `asserts`: the allocation fails and the registration stops at a failed assertion,
as the two-argument `wnd_msg_add_handler` of `wnd_msg.c` does at `assert(handler)`. -/
inductive reg_outcome
  | registered
  | unavailable
  | asserts
deriving DecidableEq, Repr

/-- Modelled from the spec: the three-argument `wnd_msg_add_handler(wnd, name, handler)`
called by `dlgitem_construct` is not among the sources.  Spec 4.2: "Registration prepends to
the chain" of the (window, message-kind) pair; only the "keydown" and "destructor" chains are
among the fields of `wnd_t` kept here.  Spec 7: the allocation of the handler record can fail;
`out` tells how the allocation goes and which of the two ways of failing is taken (see
`reg_outcome`).  The flag returned tells the caller whether the handler was registered. -/
def wnd_msg_add_handler_named (out : reg_outcome) (h : WndHeap) (wnd : Option Nat)
    (name : String) (f : wnd_handler_fn) : Except Fault (Bool × WndHeap) :=
  match wnd with
  | none => .error .assertion
  | some a =>
    match h a with
    | none => .error .invalid_access
    | some o =>
      match out with
      | .asserts => .error .assertion
      | .unavailable => .ok (false, h)
      | .registered =>
        if name = "keydown" then
          .ok (true, Function.update h a
            (some { o with wnd := { o.wnd with m_on_keydown := f :: o.wnd.m_on_keydown } }))
        else if name = "destructor" then
          .ok (true, Function.update h a
            (some { o with wnd := { o.wnd with m_destructor := f :: o.wnd.m_destructor } }))
        else .ok (true, h)

/-- Library function `strdup(s)`: a fresh copy of the string, or `NULL` when the memory for
the copy cannot be allocated (`avail = false`). -/
def strdup (avail : Bool) (s : String) : Option String :=
  if avail then some s else none

/-- The allocations one call of `dlgitem_construct` makes, in the order of the source: the one
of the base window construction (`base = false`: it reports failure), the handler records of
the "keydown" and of the "destructor" registration, and the copy of `id` made by `strdup`. -/
structure dlgitem_alloc where
  base : Bool
  keydown : reg_outcome
  destructor : reg_outcome
  id_copy : Bool
deriving DecidableEq, Repr

/-- Every allocation of `dlgitem_construct` succeeds. -/
def all_available : dlgitem_alloc :=
  { base := true, keydown := reg_outcome.registered, destructor := reg_outcome.registered,
    id_copy := true }

/-- Write of the dialog item fields of the object at `di`; a fault when the object has no
room for them. -/
def dlgitem_store (h : WndHeap) (di : Option Nat) (upd : dlgitem_fields → dlgitem_fields) :
    Except Fault WndHeap :=
  match di with
  | none => .error .invalid_access
  | some a =>
    match h a with
    | none => .error .invalid_access
    | some o =>
      match o.item with
      | none => .error .invalid_access
      | some d => .ok (Function.update h a (some { o with item := some (upd d) }))

/-- Function `dlgitem_construct`.  `DLGITEM_BORDER` is the flag constant of `wnd_dlgitem.h` (not among
the sources); `res` tells how each allocation of the call goes.  The two registrations are
called as statements: what they return is not looked at.  `m_id` receives `NULL` when `id` is
`NULL` and the result of `strdup(id)` otherwise. -/
def dlgitem_construct (DLGITEM_BORDER : Nat) (res : dlgitem_alloc) (h : WndHeap)
    (di parent : Option Nat) (title id : Option String) (get_size set_pos : Option Nat)
    (flags : Nat) : Except Fault (Bool × WndHeap) := do
  let wnd := di
  if di = none then throw Fault.assertion
  let r ← wnd_construct res.base h wnd parent title 0 0 0 0
    (if flags &&& DLGITEM_BORDER ≠ 0 then WND_FLAG_BORDER ||| WND_FLAG_CAPTION else 0)
  if r.1 = false then return (false, r.2)
  let r1 ← wnd_msg_add_handler_named res.keydown r.2 wnd "keydown"
    wnd_handler_fn.dlgitem_on_keydown
  let r2 ← wnd_msg_add_handler_named res.destructor r1.2 wnd "destructor"
    wnd_handler_fn.dlgitem_destructor
  let h ← dlgitem_store r2.2 di
    (fun d => { d with m_id := (match id with
                                | none => none
                                | some v => strdup res.id_copy v) })
  let h ← dlgitem_store h di (fun d => { d with m_get_size := get_size })
  let h ← dlgitem_store h di (fun d => { d with m_set_pos := set_pos })
  let h ← dlgitem_store h di (fun d => { d with m_flags := flags })
  let p ← wnd_load h parent
  let dialog ←
    if p.m_class_name = "dialog" then pure parent
    else do
      let pd ← dlgitem_load h parent
      pure pd.m_dialog
  let h ← dlgitem_store h di (fun d => { d with m_dialog := dialog })
  return (true, h)

/-- Function `dlgitem_destructor`: frees the string `m_id` points to, which lies outside the window
memory; no field of the object is written. -/
def dlgitem_destructor (h : WndHeap) (wnd : Option Nat) : Except Fault WndHeap := do
  let _ ← dlgitem_load h wnd
  return h

/-- Function `dlgitem_on_keydown`: the key is not looked at. -/
def dlgitem_on_keydown (h : WndHeap) (wnd : Option Nat) (_key : Nat) :
    Except Fault wnd_msg_retcode_t := do
  let w ← wnd_load h wnd
  let p ← wnd_load h w.m_parent
  let mode := p.m_mode
  if mode = wnd_mode_t.WND_MODE_REPOSITION ∨ mode = wnd_mode_t.WND_MODE_RESIZE then
    return wnd_msg_retcode_t.WND_MSG_RETCODE_PASS_TO_PARENT
  return wnd_msg_retcode_t.WND_MSG_RETCODE_OK

/-- The nearest window of class "dialog" on the way from `p` upwards along `m_parent`
(`p` itself included), looking at no more than `fuel` windows. -/
def nearest_dialog (h : WndHeap) : Nat → Option Nat → Option Nat
  | 0, _ => none
  | fuel + 1, p =>
    match wnd_load h p with
    | .error _ => none
    | .ok w => if w.m_class_name = "dialog" then p else nearest_dialog h fuel w.m_parent

/-- Chain of built items `ItemChain h di p n`: `p` is a window of class "dialog" (`n = 0`), or `p` is a dialog item
of another class whose `m_dialog` holds what `dlgitem_construct` stores (its parent when the
parent's class is "dialog", otherwise the parent's `m_dialog`) and whose parent satisfies
`ItemChain h di _ (n - 1)`; none of these windows is the object `di`. -/
inductive ItemChain (h : WndHeap) (di : Nat) : Nat → Nat → Prop
  | dialog (p : Nat) (o : wnd_obj) :
      p ≠ di → h p = some o → o.wnd.m_class_name = "dialog" → ItemChain h di p 0
  | item (p pa n : Nat) (o po : wnd_obj) (d : dlgitem_fields) :
      p ≠ di → h p = some o → o.wnd.m_class_name ≠ "dialog" → o.item = some d →
      o.wnd.m_parent = some pa → h pa = some po →
      d.m_dialog = (if po.wnd.m_class_name = "dialog" then some pa
        else match po.item with
          | some pd => pd.m_dialog
          | none => none) →
      ItemChain h di pa n → ItemChain h di p (n + 1)

/-! ### Example memories -/

/-- A message to window `w` of type `t` without payload. -/
def ex_msg (w t : Nat) : wnd_msg_t :=
  { m_wnd := some w, m_type := t, m_data := { m_data := none, m_destructor := none } }

/-- Four queue nodes at addresses 10..13, linked in that order, for the windows 1, 1, 2, 1. -/
def ex_items : Nat → Option wnd_msg_queue_item_t
  | 10 => some { m_msg := ex_msg 1 0, m_next := some 11, m_prev := none }
  | 11 => some { m_msg := ex_msg 1 1, m_next := some 12, m_prev := some 10 }
  | 12 => some { m_msg := ex_msg 2 2, m_next := some 13, m_prev := some 11 }
  | 13 => some { m_msg := ex_msg 1 3, m_next := none, m_prev := some 12 }
  | _ => none

/-- The queue over `ex_items`. -/
def ex_queue : MsgHeap :=
  { queue := { m_base := some 10, m_last := some 13, m_mutex := false }, items := ex_items }

/-- The nodes of `ex_queue`, head first. -/
def ex_nodes : List (Nat × wnd_msg_t) :=
  [(10, ex_msg 1 0), (11, ex_msg 1 1), (12, ex_msg 2 2), (13, ex_msg 1 3)]

/-- The empty queue with no node allocated. -/
def ex_empty_queue : MsgHeap :=
  { queue := { m_base := none, m_last := none, m_mutex := false }, items := fun _ => none }

/-- The empty handler chain with no record allocated. -/
def ex_empty_chain : HandlerHeap := { chain := none, handlers := fun _ => none }

/-- A chain of one record at address 20 holding the handler 7. -/
def ex_chain : HandlerHeap :=
  { chain := some 20,
    handlers := fun a => if a = 20 then some { m_func := some 7, m_next := none } else none }

/-- A window part with the given parent, class and mode, everything else zero. -/
def ex_wnd (parent : Option Nat) (cls : String) (mode : wnd_mode_t) : wnd_t :=
  { m_title := none, m_flags := 0, m_parent := parent, m_children := [], m_on_keydown := [],
    m_destructor := [], m_x := 0, m_y := 0, m_screen_x := 0, m_screen_y := 0, m_width := 0,
    m_height := 0, m_client_x := 0, m_client_y := 0, m_client_w := 0, m_client_h := 0,
    m_mode := mode, m_class_name := cls }

/-- Dialog item fields before construction. -/
def ex_raw_item : dlgitem_fields :=
  { m_id := none, m_get_size := none, m_set_pos := none, m_flags := 0, m_dialog := none }

/-- A window tree: the root 1, the dialog 2 below it (in reposition mode), and two allocated,
not yet constructed dialog item objects 3 and 4. -/
def ex_tree : WndHeap
  | 1 => some { wnd := ex_wnd none "root" wnd_mode_t.WND_MODE_NORMAL, item := none }
  | 2 => some { wnd := ex_wnd (some 1) "dialog" wnd_mode_t.WND_MODE_REPOSITION, item := none }
  | 3 => some { wnd := ex_wnd none "vbox" wnd_mode_t.WND_MODE_NORMAL, item := some ex_raw_item }
  | 4 => some { wnd := ex_wnd none "editbox" wnd_mode_t.WND_MODE_NORMAL, item := some ex_raw_item }
  | _ => none

/-- The window memory a constructor call leaves (`dflt` when the call faults). -/
def heap_after (r : Except Fault (Bool × WndHeap)) (dflt : WndHeap) : WndHeap :=
  match r with
  | .ok x => x.2
  | .error _ => dflt

/-- The tree `ex_tree` after `dlgitem_construct` has built the item 3 below the dialog 2. -/
def ex_tree_built : WndHeap :=
  heap_after (dlgitem_construct 1 all_available ex_tree (some 3) (some 2) none none none none 0)
    ex_tree

/-! ### Coordinate macros (`wnd.h`) and size negotiation (`wnd_dlgitem.c`) -/

/-- The least value of a C `int` (32 bits, two's complement). -/
def INT_MIN : Int := -2147483648

/-- The greatest value of a C `int`. -/
def INT_MAX : Int := 2147483647

/-- The integer `z` is a value of the C type `int`. -/
def is_int (z : Int) : Prop := INT_MIN ≤ z ∧ z ≤ INT_MAX

/-- The `int` that a 32-bit two's complement machine holds for the mathematical result `z`
of an `int` operation: `z` itself when it is in range, `z` wrapped by `2^32` otherwise. -/
def int_wrap (z : Int) : Int := (z + 2147483648) % 4294967296 - 2147483648

/-- The C expression `a + b` on `int` operands. -/
def int_add (a b : Int) : Int := int_wrap (a + b)

/-- The C expression `a - b` on `int` operands. -/
def int_sub (a b : Int) : Int := int_wrap (a - b)

/-- Macro `WND_CLIENT2ABS_X(wnd, x)`: `(WND_OBJ(wnd)->m_client_x + (x))`, an `int` addition. -/
def WND_CLIENT2ABS_X (wnd : wnd_t) (x : Int) : Int := int_add wnd.m_client_x x

/-- Macro `WND_CLIENT2ABS_Y(wnd, y)`: `(WND_OBJ(wnd)->m_client_y + (y))`, an `int` addition. -/
def WND_CLIENT2ABS_Y (wnd : wnd_t) (y : Int) : Int := int_add wnd.m_client_y y

/-- Macro `WND_CLIENT2SCREEN_X(wnd, x)`: `(m_screen_x + m_client_x + (x))`, two `int`
additions from left to right. -/
def WND_CLIENT2SCREEN_X (wnd : wnd_t) (x : Int) : Int :=
  int_add (int_add wnd.m_screen_x wnd.m_client_x) x

/-- Macro `WND_CLIENT2SCREEN_Y(wnd, y)`: `(m_screen_y + m_client_y + (y))`, two `int`
additions from left to right. -/
def WND_CLIENT2SCREEN_Y (wnd : wnd_t) (y : Int) : Int :=
  int_add (int_add wnd.m_screen_y wnd.m_client_y) y

/-- A window part whose client origin is at the greatest `int`, with screen origin `(3, 4)`. -/
def ex_wnd_far : wnd_t :=
  { m_title := none, m_flags := 0, m_parent := none, m_children := [], m_on_keydown := [],
    m_destructor := [], m_x := 0, m_y := 0, m_screen_x := 3, m_screen_y := 4, m_width := 0,
    m_height := 0, m_client_x := 2147483647, m_client_y := 1, m_client_w := 0, m_client_h := 0,
    m_mode := wnd_mode_t.WND_MODE_NORMAL, m_class_name := "far" }

/-- Function `dlgitem_get_size(di, width, height)`.  The arguments `width` and `height` are
the contents of `*width` and `*height` before the call, the result holds the window memory
and their contents after it.  `call f h di (w, ht)` is what the capability function `f` leaves
when it is called as `f(di, width, height)`. -/
def dlgitem_get_size (call : Nat → WndHeap → Option Nat → Int × Int → WndHeap × Int × Int)
    (h : WndHeap) (di : Option Nat) (width height : Int) : Except Fault (WndHeap × Int × Int) := do
  let d ← dlgitem_load h di
  match d.m_get_size with
  | none => return (h, 0, 0)
  | some f => return call f h di (width, height)

/-! ### Input plugins (`plugin_input.c`) -/

/-- An entry of the special function table (`m_spec_funcs[i]`), with the members
`plugin_input.c` uses; the type is declared in `inp.h`, which is not among the sources. -/
structure inp_spec_func_t where
  m_title : Option String
  m_flags : Nat
  m_func : Option Nat
deriving DecidableEq, Repr

/-- The plugin data `m_pd` (`inp_data_t`), with the members the embedded functions use; the
table is `none` for a `NULL` `m_spec_funcs`, otherwise the entries that are allocated. -/
structure inp_data_t where
  m_flags : Nat
  m_num_spec_funcs : Int
  m_spec_funcs : Option (List inp_spec_func_t)
  m_get_plugin_flags : Option Nat
deriving DecidableEq, Repr

/-- An input plugin (`in_plugin_t`). -/
structure in_plugin_t where
  m_pd : inp_data_t
deriving DecidableEq, Repr

/-- Read of `m_spec_funcs[index]`: a fault when the index lies outside the allocated table. -/
def spec_funcs_read (table : List inp_spec_func_t) (index : Int) :
    Except Fault inp_spec_func_t :=
  if 0 ≤ index then
    match table.get? index.toNat with
    | some e => .ok e
    | none => .error .invalid_access
  else .error .invalid_access

/-- Function `inp_get_spec_title`: the returned title and the table indices that were read. -/
def inp_get_spec_title (p : Option in_plugin_t) (index : Int) :
    Except Fault (Option String × List Int) :=
  match p with
  | none => .ok (none, [])
  | some pl =>
    if index ≥ 0 then
      if index < pl.m_pd.m_num_spec_funcs then
        match pl.m_pd.m_spec_funcs with
        | none => .ok (none, [])
        | some table => do
          let e ← spec_funcs_read table index
          return (e.m_title, [index])
      else .ok (none, [])
    else .ok (none, [])

/-- Function `inp_get_spec_flags`: the returned flags and the table indices that were read. -/
def inp_get_spec_flags (p : Option in_plugin_t) (index : Int) :
    Except Fault (Nat × List Int) :=
  match p with
  | none => .ok (0, [])
  | some pl =>
    if index ≥ 0 then
      if index < pl.m_pd.m_num_spec_funcs then
        match pl.m_pd.m_spec_funcs with
        | none => .ok (0, [])
        | some table => do
          let e ← spec_funcs_read table index
          return (e.m_flags, [index])
      else .ok (0, [])
    else .ok (0, [])

/-- Function `inp_spec_func`: the calls made (function and file name) and the table indices
that were read (once for the test of `m_func`, once more for the call). -/
def inp_spec_func (p : Option in_plugin_t) (index : Int) (filename : String) :
    Except Fault (List (Nat × String) × List Int) :=
  match p with
  | none => .ok ([], [])
  | some pl =>
    match pl.m_pd.m_spec_funcs with
    | none => .ok ([], [])
    | some table =>
      if index ≥ 0 then
        if index < pl.m_pd.m_num_spec_funcs then do
          let e ← spec_funcs_read table index
          match e.m_func with
          | none => return ([], [index])
          | some f => return ([(f, filename)], [index, index])
        else .ok ([], [])
      else .ok ([], [])

/-- Function `inp_get_plugin_flags`; `call f` is the value the callback `f` returns. -/
def inp_get_plugin_flags (call : Nat → Nat) (p : Option in_plugin_t) : Nat :=
  match p with
  | none => 0
  | some pl =>
    match pl.m_pd.m_get_plugin_flags with
    | none => 0
    | some f => call f

/-- Function `inp_get_flags`. -/
def inp_get_flags (call : Nat → Nat) (p : Option in_plugin_t) : Nat :=
  let flags := inp_get_plugin_flags call p
  if flags ≠ 0 then flags
  else
    match p with
    | some pl => pl.m_pd.m_flags
    | none => 0

/-- The guard of the special function accessors: `p` is not `NULL`, the table is present and
`0 <= index < m_num_spec_funcs`. -/
def spec_index_ok (p : Option in_plugin_t) (index : Int) : Prop :=
  ∃ pl table, p = some pl ∧ pl.m_pd.m_spec_funcs = some table ∧ 0 ≤ index ∧
    index < pl.m_pd.m_num_spec_funcs

/-- An example plugin with two special functions, the second without a function. -/
def ex_plugin : in_plugin_t :=
  { m_pd :=
    { m_flags := 4, m_num_spec_funcs := 2,
      m_spec_funcs := some
        [{ m_title := some "Configure", m_flags := 1, m_func := some 30 },
         { m_title := some "About", m_flags := 0, m_func := none }],
      m_get_plugin_flags := some 31 } }

/-- Outcome of a call with respect to the mutex: a normal return satisfies `P`, and an
abnormal end is neither a second acquisition of the held mutex nor a release of the free
mutex. -/
def LockSafe {α : Type} (P : α → Prop) (r : Except Fault α) : Prop :=
  match r with
  | .ok v => P v
  | .error e => e ≠ Fault.deadlock ∧ e ≠ Fault.unlock_free


/-! ### Queue teardown (`wnd_msg.c`) -/

/-- What the teardown of a queue does to memory outside the queue nodes' links: a call of a
payload destructor, the release of a payload, of a queue node, of the mutex, of the header. -/
inductive FreeEvent
  | destructor (f : Nat) (data : Nat)
  | free_data (data : Nat)
  | free_item (a : Nat)
  | mutex_destroy
  | free_queue
deriving DecidableEq, Repr

/-- Function `wnd_msg_free(msg)`: the destructor call and the release it performs, in order. -/
def wnd_msg_free (msg : wnd_msg_t) : List FreeEvent :=
  match msg.m_data.m_data with
  | none => []
  | some d =>
    (match msg.m_data.m_destructor with
      | some f => [FreeEvent.destructor f d]
      | none => []) ++ [FreeEvent.free_data d]

/-- The loop of `wnd_msg_queue_free`, started at `ptr`: the memory left and the events in
order; each iteration uses one unit of `fuel`. -/
def queue_free_loop : Nat → MsgHeap → Option Nat → Except Fault (MsgHeap × List FreeEvent)
  | _, s, none => .ok (s, [])
  | 0, _, some _ => .error .out_of_fuel
  | fuel + 1, s, some a => do
    let it ← item_load s (some a)
    let next := it.m_next
    let ev := wnd_msg_free it.m_msg
    let s ← item_free s (some a)
    let r ← queue_free_loop fuel s next
    return (r.1, ev ++ [FreeEvent.free_item a] ++ r.2)

/-- Function `wnd_msg_queue_free`: the events of the teardown in order.  The payload
destructors are taken not to touch the queue. -/
def wnd_msg_queue_free (fuel : Nat) (s : MsgHeap) : Except Fault (List FreeEvent) := do
  let s ← wnd_msg_lock_queue s
  let r ← queue_free_loop fuel s s.queue.m_base
  let _ ← wnd_msg_unlock_queue r.1
  return r.2 ++ [FreeEvent.mutex_destroy, FreeEvent.free_queue]

/-- The events of releasing the nodes of `l` one after the other, head first: for each node
the events of `wnd_msg_free` on its message, then the release of the node. -/
def free_events : List (Nat × wnd_msg_t) → List FreeEvent
  | [] => []
  | (a, msg) :: rest => wnd_msg_free msg ++ [FreeEvent.free_item a] ++ free_events rest

/-- The number of destructor calls among the events. -/
def destructor_calls : List FreeEvent → Nat
  | [] => 0
  | FreeEvent.destructor _ _ :: rest => destructor_calls rest + 1
  | _ :: rest => destructor_calls rest

/-- A queue of three nodes whose messages carry: a payload with destructor, a payload without
destructor, no payload (with a destructor set). -/
def ex_payload_items : Nat → Option wnd_msg_queue_item_t
  | 10 => some { m_msg := { m_wnd := some 1, m_type := 0, m_data := ⟨some 50, some 60⟩ },
                 m_next := some 11, m_prev := none }
  | 11 => some { m_msg := { m_wnd := some 1, m_type := 1, m_data := ⟨some 51, none⟩ },
                 m_next := some 12, m_prev := some 10 }
  | 12 => some { m_msg := { m_wnd := some 2, m_type := 2, m_data := ⟨none, some 60⟩ },
                 m_next := none, m_prev := some 11 }
  | _ => none

/-- The queue over `ex_payload_items`. -/
def ex_payload_queue : MsgHeap :=
  { queue := { m_base := some 10, m_last := some 12, m_mutex := false },
    items := ex_payload_items }

/-- The nodes of `ex_payload_queue`, head first. -/
def ex_payload_nodes : List (Nat × wnd_msg_t) :=
  [(10, { m_wnd := some 1, m_type := 0, m_data := ⟨some 50, some 60⟩ }),
   (11, { m_wnd := some 1, m_type := 1, m_data := ⟨some 51, none⟩ }),
   (12, { m_wnd := some 2, m_type := 2, m_data := ⟨none, some 60⟩ })]

/-! ### Queue well-formedness, stated on the pointers -/

/-- The addresses visited by following `m_next` from `p` until `NULL`; `none` when a pointer
on the way is dangling or more than `fuel` nodes are met. -/
def queue_walk (s : MsgHeap) : Nat → Option Nat → Option (List Nat)
  | _, none => some []
  | 0, some _ => none
  | fuel + 1, some a =>
    match s.items a with
    | none => none
    | some it => (queue_walk s fuel it.m_next).map (fun rest => a :: rest)

/-- The message stored in the node at `a` (an empty message when nothing is allocated there). -/
def msg_at (s : MsgHeap) (a : Nat) : wnd_msg_t :=
  match s.items a with
  | some it => it.m_msg
  | none => { m_wnd := none, m_type := 0, m_data := { m_data := none, m_destructor := none } }

/-- Queue well-formedness on the pointers, for a queue whose entries are the nodes `ns`:
`m_base` is `NULL` iff `m_last` is `NULL`; the head has no predecessor; the tail has no
successor; for entries `a` and `b`, `b` is `a`'s `m_next` iff `a` is `b`'s `m_prev`; following
`m_next` from `m_base` visits the entries `ns`, each once, and ends at `m_last`. -/
structure QueueInv (s : MsgHeap) (ns : List Nat) : Prop where
  base_iff_last : s.queue.m_base = none ↔ s.queue.m_last = none
  head_no_prev : ∀ a, s.queue.m_base = some a → ∃ it, s.items a = some it ∧ it.m_prev = none
  tail_no_next : ∀ a, s.queue.m_last = some a → ∃ it, s.items a = some it ∧ it.m_next = none
  next_iff_prev : ∀ a b ita itb, a ∈ ns → b ∈ ns → s.items a = some ita →
    s.items b = some itb → (ita.m_next = some b ↔ itb.m_prev = some a)
  walk : queue_walk s ns.length s.queue.m_base = some ns
  once : ns.Nodup
  ends_at_last : s.queue.m_last = ns.getLast?

/-! ### Queue accesses and the lock (`wnd_msg.c`) -/

/-- The accesses to the queue that `wnd_msg_get` and `wnd_msg_queue_remove_by_window` make:
the emptiness test `queue->m_base == NULL`, the copy of the head message, the unlinking of a
node by `wnd_msg_rem`, the scan of a node by the purge loop (its target and links), and the
read of `queue->m_base` or `prev->m_next` after an eviction. -/
inductive QueueAccess
  | emptiness_test
  | copy_head (p : Option Nat)
  | unlink (item : Option Nat)
  | scan (item : Option Nat)
  | next_after_eviction
deriving DecidableEq, Repr

/-- Function `wnd_msg_rem` with its access recorded: the unlinking of `item`, together with
the state of the mutex flag while it is done. -/
def wnd_msg_rem_traced (s : MsgHeap) (item : Option Nat) :
    Except Fault (MsgHeap × List (QueueAccess × Bool)) := do
  if item = none then throw Fault.assertion
  let s ← wnd_msg_lock_queue s
  let ev := [(QueueAccess.unlink item, s.queue.m_mutex)]
  let it ← item_load s item
  let s ←
    if it.m_next ≠ none then item_set_prev s it.m_next it.m_prev
    else pure { s with queue := { s.queue with m_last := it.m_prev } }
  let it ← item_load s item
  let s ←
    if it.m_prev ≠ none then item_set_next s it.m_prev it.m_next
    else pure { s with queue := { s.queue with m_base := it.m_next } }
  let s ← item_free s item
  let s ← wnd_msg_unlock_queue s
  return (s, ev)

/-- Function `wnd_msg_get` with its accesses recorded, each with the state of the mutex flag
at the time of the access. -/
def wnd_msg_get_traced (s : MsgHeap) (msg : wnd_msg_t) :
    Except Fault ((Bool × wnd_msg_t × MsgHeap) × List (QueueAccess × Bool)) := do
  let ev1 := [(QueueAccess.emptiness_test, s.queue.m_mutex)]
  if s.queue.m_base = none then return ((false, msg, s), ev1)
  let ev2 := [(QueueAccess.copy_head s.queue.m_base, s.queue.m_mutex)]
  let it ← item_load s s.queue.m_base
  let msg := it.m_msg
  let r ← wnd_msg_rem_traced s s.queue.m_base
  return ((true, msg, r.1), ev1 ++ ev2 ++ r.2)

/-- The loop of `wnd_msg_queue_remove_by_window` with its accesses recorded. -/
def remove_by_window_loop_traced (desc : Option Nat → Option Nat → Bool) (wnd : Option Nat)
    (with_descendants : Bool) :
    Nat → MsgHeap → Option Nat → Except Fault (MsgHeap × List (QueueAccess × Bool))
  | _, s, none => .ok (s, [])
  | 0, _, some _ => .error .out_of_fuel
  | fuel + 1, s, some a => do
    let it ← item_load s (some a)
    let ev := [(QueueAccess.scan (some a), s.queue.m_mutex)]
    let target := it.m_msg.m_wnd
    if target = wnd || (with_descendants && desc wnd target) then
      let prev := it.m_prev
      let r ← wnd_msg_rem_traced s (some a)
      let ev2 := [(QueueAccess.next_after_eviction, r.1.queue.m_mutex)]
      if prev = none then do
        let r2 ← remove_by_window_loop_traced desc wnd with_descendants fuel r.1 r.1.queue.m_base
        return (r2.1, ev ++ r.2 ++ ev2 ++ r2.2)
      else do
        let p ← item_load r.1 prev
        let r2 ← remove_by_window_loop_traced desc wnd with_descendants fuel r.1 p.m_next
        return (r2.1, ev ++ r.2 ++ ev2 ++ r2.2)
    else do
      let r2 ← remove_by_window_loop_traced desc wnd with_descendants fuel s it.m_next
      return (r2.1, ev ++ r2.2)

/-- Function `wnd_msg_queue_remove_by_window` with its accesses recorded. -/
def wnd_msg_queue_remove_by_window_traced (desc : Option Nat → Option Nat → Bool) (fuel : Nat)
    (s : MsgHeap) (wnd : Option Nat) (with_descendants : Bool) :
    Except Fault (MsgHeap × List (QueueAccess × Bool)) := do
  if wnd = none then throw Fault.assertion
  remove_by_window_loop_traced desc wnd with_descendants fuel s s.queue.m_base

/-- The queue `ex_queue` with its mutex held. -/
def ex_queue_locked : MsgHeap :=
  { queue := { m_base := some 10, m_last := some 13, m_mutex := true }, items := ex_items }

/-! ## Part 2: theorems -/

/-! ### Linked segments -/

theorem seg_frame {m m' : Nat → Option wnd_msg_queue_item_t} :
    ∀ (l : List (Nat × wnd_msg_t)) (prev first last nxt : Option Nat),
      (∀ a ∈ l.map Prod.fst, m' a = m a) →
      Seg m prev l first last nxt → Seg m' prev l first last nxt := by
  intro l
  induction l with
  | nil => intro prev first last nxt _ h; exact h
  | cons x rest ih =>
    obtain ⟨a, msg⟩ := x
    intro prev first last nxt hm h
    obtain ⟨hf, n, hn, hrest⟩ := h
    refine ⟨hf, n, ?_, ih _ _ _ _ (fun b hb => hm b (by simp at hb ⊢; exact Or.inr hb)) hrest⟩
    rw [hm a (by simp)]
    exact hn

theorem seg_append (m : Nat → Option wnd_msg_queue_item_t) :
    ∀ (l1 l2 : List (Nat × wnd_msg_t)) (prev first last nxt : Option Nat),
      Seg m prev (l1 ++ l2) first last nxt ↔
        ∃ mid pl, Seg m prev l1 first pl mid ∧ Seg m pl l2 mid last nxt := by
  intro l1
  induction l1 with
  | nil =>
    intro l2 prev first last nxt
    constructor
    · intro h
      exact ⟨first, prev, ⟨rfl, rfl⟩, h⟩
    · rintro ⟨mid, pl, ⟨h1, h2⟩, h⟩
      subst h1 h2
      exact h
  | cons x rest ih =>
    obtain ⟨a, msg⟩ := x
    intro l2 prev first last nxt
    constructor
    · rintro ⟨hf, n, hn, h⟩
      obtain ⟨mid, pl, h1, h2⟩ := (ih l2 (some a) n last nxt).1 h
      exact ⟨mid, pl, ⟨hf, n, hn, h1⟩, h2⟩
    · rintro ⟨mid, pl, ⟨hf, n, hn, h1⟩, h2⟩
      exact ⟨hf, n, hn, (ih l2 (some a) n last nxt).2 ⟨mid, pl, h1, h2⟩⟩

theorem seg_first {m : Nat → Option wnd_msg_queue_item_t} :
    ∀ (l : List (Nat × wnd_msg_t)) (prev first last nxt : Option Nat),
      Seg m prev l first last nxt → first = firstAddr nxt l := by
  intro l prev first last nxt h
  cases l with
  | nil => exact h.1
  | cons x rest => exact h.1

theorem seg_last {m : Nat → Option wnd_msg_queue_item_t} :
    ∀ (l : List (Nat × wnd_msg_t)) (prev first last nxt : Option Nat),
      Seg m prev l first last nxt → last = lastAddr prev l := by
  intro l
  induction l with
  | nil => intro prev first last nxt h; exact h.2
  | cons x rest ih =>
    obtain ⟨a, msg⟩ := x
    intro prev first last nxt h
    obtain ⟨_, n, _, hrest⟩ := h
    exact ih _ _ _ _ hrest

theorem lastAddr_mem :
    ∀ (l : List (Nat × wnd_msg_t)) (prev : Option Nat), l ≠ [] →
      ∃ b, lastAddr prev l = some b ∧ b ∈ l.map Prod.fst := by
  intro l
  induction l with
  | nil => intro prev h; exact absurd rfl h
  | cons x rest ih =>
    obtain ⟨a, msg⟩ := x
    intro prev _
    cases rest with
    | nil => exact ⟨a, rfl, by simp⟩
    | cons y rest2 =>
      obtain ⟨b, hb, hmem⟩ := ih (some a) (by simp)
      exact ⟨b, hb, by simp at hmem ⊢; exact Or.inr hmem⟩

/-- Redirecting the `m_next` of the last node of a non-empty segment. -/
theorem seg_retarget_end (m : Nat → Option wnd_msg_queue_item_t) (nxt' : Option Nat) :
    ∀ (l : List (Nat × wnd_msg_t)) (prev first last nxt : Option Nat),
      (l.map Prod.fst).Nodup → Seg m prev l first last nxt → l ≠ [] →
      ∃ b itb, last = some b ∧ b ∈ l.map Prod.fst ∧ m b = some itb ∧ itb.m_next = nxt ∧
        Seg (Function.update m b (some { itb with m_next := nxt' })) prev l first last nxt' := by
  intro l
  induction l with
  | nil => intro prev first last nxt _ _ h; exact absurd rfl h
  | cons x rest ih =>
    obtain ⟨a, msg⟩ := x
    intro prev first last nxt hnd h _
    obtain ⟨hf, n, hn, hrest⟩ := h
    cases rest with
    | nil =>
      obtain ⟨h1, h2⟩ := hrest
      refine ⟨a, _, h2, by simp, hn, h1, hf, nxt', by simp, rfl, h2⟩
    | cons y rest2 =>
      have hnd2 : ((y :: rest2).map Prod.fst).Nodup := by
        simp only [List.map_cons, List.nodup_cons] at hnd ⊢
        exact hnd.2
      obtain ⟨b, itb, hl, hmem, hb, hnx, hseg⟩ := ih (some a) n last nxt hnd2 hrest (by simp)
      have hab : a ≠ b := by
        intro hab
        subst hab
        simp only [List.map_cons, List.nodup_cons] at hnd
        exact hnd.1 hmem
      refine ⟨b, itb, hl, by simp at hmem ⊢; exact Or.inr hmem, hb, hnx, hf, n, ?_, hseg⟩
      rw [Function.update_noteq hab]
      exact hn

/-- Redirecting the `m_prev` of the first node of a segment. -/
theorem seg_retarget_start (m : Nat → Option wnd_msg_queue_item_t) (prev' : Option Nat)
    (a : Nat) (msg : wnd_msg_t) (rest : List (Nat × wnd_msg_t)) (prev first last nxt : Option Nat)
    (ha : a ∉ rest.map Prod.fst) (h : Seg m prev ((a, msg) :: rest) first last nxt) :
    ∃ it, m a = some it ∧ it.m_prev = prev ∧ it.m_next = firstAddr nxt rest ∧
      Seg (Function.update m a (some { it with m_prev := prev' })) prev' ((a, msg) :: rest)
        first last nxt := by
  obtain ⟨hf, n, hn, hrest⟩ := h
  refine ⟨_, hn, rfl, seg_first _ _ _ _ _ hrest, hf, n, by simp, ?_⟩
  refine seg_frame _ _ _ _ _ (fun b hb => ?_) hrest
  have : b ≠ a := fun hba => ha (hba ▸ hb)
  rw [Function.update_noteq this]

/-! ### `wnd_msg_rem` -/

theorem nodup_split (l1 l2 : List (Nat × wnd_msg_t)) (a : Nat) (msg : wnd_msg_t)
    (h : ((l1 ++ (a, msg) :: l2).map Prod.fst).Nodup) :
    (l1.map Prod.fst).Nodup ∧ (l2.map Prod.fst).Nodup ∧ a ∉ l1.map Prod.fst ∧
      a ∉ l2.map Prod.fst ∧ (∀ b, b ∈ l1.map Prod.fst → b ∉ l2.map Prod.fst) ∧
      ((l1 ++ l2).map Prod.fst).Nodup := by
  simp only [List.map_append, List.map_cons] at h ⊢
  rw [List.nodup_append] at h ⊢
  obtain ⟨h1, h2, h3⟩ := h
  rw [List.nodup_cons] at h2
  refine ⟨h1, h2.2, ?_, h2.1, ?_, h1, h2.2, ?_⟩
  · intro ha
    exact h3 ha (List.mem_cons_self _ _)
  · intro b hb1 hb2
    exact h3 hb1 (List.mem_cons_of_mem _ hb2)
  · intro b hb1 hb2
    exact h3 hb1 (List.mem_cons_of_mem _ hb2)

/-- Unlinking the node `a` from a well-formed queue `l1 ++ (a, msg) :: l2` succeeds and
leaves the well-formed queue `l1 ++ l2`, whose other nodes keep address and message. -/
theorem wnd_msg_rem_spec (s : MsgHeap) (l1 l2 : List (Nat × wnd_msg_t)) (a : Nat)
    (msg : wnd_msg_t) (h : QueueRep s (l1 ++ (a, msg) :: l2)) :
    ∃ s', wnd_msg_rem s (some a) = .ok s' ∧ QueueRep s' (l1 ++ l2) ∧
      (∀ b, s.items b = none → s'.items b = none) := by
  obtain ⟨hfree, hnd, hseg⟩ := h
  obtain ⟨hnd1, hnd2, ha1, ha2, hdisj, hnd12⟩ := nodup_split l1 l2 a msg hnd
  obtain ⟨mid, pl, h1, h2⟩ := (seg_append _ _ _ _ _ _ _).1 hseg
  obtain ⟨hmid, n, hma, h2r⟩ := h2
  subst hmid
  cases l2 with
  | nil =>
    obtain ⟨hn, hlast⟩ := h2r
    subst hn
    by_cases hl1 : l1 = []
    · subst hl1
      obtain ⟨hbase, hpl⟩ := h1
      subst hpl
      refine ⟨{ queue := { m_base := none, m_last := none, m_mutex := false },
                items := Function.update s.items a none }, ?_, ⟨rfl, hnd12, rfl, rfl⟩, ?_⟩
      · simp [wnd_msg_rem, wnd_msg_lock_queue, wnd_msg_unlock_queue, item_load, item_free,
          hfree, hma, bind, Except.bind, pure, Except.pure]
      · intro b hb
        by_cases hba : b = a
        · subst hba; simp
        · simp [Function.update_noteq hba, hb]
    · obtain ⟨b, itb, hplb, hbmem, hmb, hbn, hseg1⟩ :=
        seg_retarget_end s.items none l1 none s.queue.m_base pl (some a) hnd1 h1 hl1
      subst hplb
      have hab : a ≠ b := fun hab => ha1 (hab ▸ hbmem)
      refine ⟨{ queue := { m_base := s.queue.m_base, m_last := some b, m_mutex := false },
                items := Function.update
                  (Function.update s.items b (some { itb with m_next := none })) a none },
              ?_, ⟨rfl, hnd12, ?_⟩, ?_⟩
      · simp [wnd_msg_rem, wnd_msg_lock_queue, wnd_msg_unlock_queue, item_load, item_free,
          item_set_next, item_store, hfree, hma, hmb, bind, Except.bind, pure, Except.pure,
          Function.update_apply, hab]
      · simp only [List.append_nil]
        refine seg_frame _ _ _ _ _ (fun x hx => ?_) hseg1
        have hxa : x ≠ a := fun hxa => ha1 (hxa ▸ hx)
        simp [Function.update_noteq hxa]
      · intro x hx
        by_cases hxa : x = a
        · subst hxa; simp
        · have hxb : x ≠ b := by
            intro hxb; subst hxb; rw [hmb] at hx; exact absurd hx (by simp)
          simp [Function.update_noteq hxa, Function.update_noteq hxb, hx]
  | cons y r2 =>
    obtain ⟨c, mc⟩ := y
    have hc2 : c ∉ r2.map Prod.fst := by
      simp only [List.map_cons, List.nodup_cons] at hnd2
      exact hnd2.1
    have hn : n = some c := h2r.1
    subst hn
    obtain ⟨itc, hmc, _, _, hseg2⟩ :=
      seg_retarget_start s.items pl c mc r2 (some a) (some c) s.queue.m_last none hc2 h2r
    have hac : a ≠ c := by
      intro hac; apply ha2; simp [hac]
    by_cases hl1 : l1 = []
    · subst hl1
      obtain ⟨hbase, hpl⟩ := h1
      subst hpl
      refine ⟨{ queue := { m_base := some c, m_last := s.queue.m_last, m_mutex := false },
                items := Function.update
                  (Function.update s.items c (some { itc with m_prev := none })) a none },
              ?_, ⟨rfl, hnd12, ?_⟩, ?_⟩
      · simp [wnd_msg_rem, wnd_msg_lock_queue, wnd_msg_unlock_queue, item_load, item_free,
          item_set_prev, item_store, hfree, hma, hmc, bind, Except.bind, pure, Except.pure,
          Function.update_apply, hac]
      · simp only [List.nil_append]
        refine seg_frame _ _ _ _ _ (fun x hx => ?_) hseg2
        have hxa : x ≠ a := fun hxa => ha2 (hxa ▸ hx)
        simp [Function.update_noteq hxa]
      · intro x hx
        by_cases hxa : x = a
        · subst hxa; simp
        · have hxc : x ≠ c := by
            intro hxc; subst hxc; rw [hmc] at hx; exact absurd hx (by simp)
          simp [Function.update_noteq hxa, Function.update_noteq hxc, hx]
    · obtain ⟨b, itb, hplb, hbmem, hmb, hbn, hseg1⟩ :=
        seg_retarget_end s.items (some c) l1 none s.queue.m_base pl (some a) hnd1 h1 hl1
      subst hplb
      have hab : a ≠ b := fun hab => ha1 (hab ▸ hbmem)
      have hbc : b ≠ c := by
        intro hbc; apply hdisj b hbmem; simp [hbc]
      refine ⟨{ queue := { m_base := s.queue.m_base, m_last := s.queue.m_last, m_mutex := false },
                items := Function.update (Function.update
                  (Function.update s.items c (some { itc with m_prev := some b }))
                  b (some { itb with m_next := some c })) a none },
              ?_, ⟨rfl, hnd12, ?_⟩, ?_⟩
      · simp [wnd_msg_rem, wnd_msg_lock_queue, wnd_msg_unlock_queue, item_load, item_free,
          item_set_prev, item_set_next, item_store, hfree, hma, hmc, hmb, bind, Except.bind,
          pure, Except.pure, Function.update_apply, hac, hab, hbc]
      · refine (seg_append _ _ _ _ _ _ _).2 ⟨some c, some b, ?_, ?_⟩
        · refine seg_frame _ _ _ _ _ (fun x hx => ?_) hseg1
          have hxa : x ≠ a := fun hxa => ha1 (hxa ▸ hx)
          have hxc : x ≠ c := by
            intro hxc; apply hdisj x hx; simp [hxc]
          by_cases hxb : x = b
          · subst hxb; simp [Function.update_noteq hxa]
          · simp [Function.update_noteq hxa, Function.update_noteq hxb,
              Function.update_noteq hxc]
        · refine seg_frame _ _ _ _ _ (fun x hx => ?_) hseg2
          have hxa : x ≠ a := fun hxa => ha2 (hxa ▸ hx)
          have hxb : x ≠ b := fun hxb => hdisj b hbmem (hxb ▸ hx)
          simp [Function.update_noteq hxa, Function.update_noteq hxb]
      · intro x hx
        by_cases hxa : x = a
        · subst hxa; simp
        · have hxc : x ≠ c := by
            intro hxc; subst hxc; rw [hmc] at hx; exact absurd hx (by simp)
          have hxb : x ≠ b := by
            intro hxb; subst hxb; rw [hmb] at hx; exact absurd hx (by simp)
          simp [Function.update_noteq hxa, Function.update_noteq hxc,
            Function.update_noteq hxb, hx]

theorem seg_live {m : Nat → Option wnd_msg_queue_item_t} :
    ∀ (l : List (Nat × wnd_msg_t)) (prev first last nxt : Option Nat),
      Seg m prev l first last nxt → ∀ b ∈ l.map Prod.fst, m b ≠ none := by
  intro l
  induction l with
  | nil => intro prev first last nxt _ b hb; simp at hb
  | cons x rest ih =>
    obtain ⟨a, msg⟩ := x
    intro prev first last nxt h b hb
    obtain ⟨_, n, hn, hrest⟩ := h
    simp only [List.map_cons, List.mem_cons] at hb
    rcases hb with hb | hb
    · subst hb; rw [hn]; simp
    · exact ih _ _ _ _ hrest b hb

theorem queue_node_at (s : MsgHeap) (l1 l2 : List (Nat × wnd_msg_t)) (a : Nat) (msg : wnd_msg_t)
    (h : QueueRep s (l1 ++ (a, msg) :: l2)) :
    s.items a = some { m_msg := msg, m_next := firstAddr none l2, m_prev := lastAddr none l1 } := by
  obtain ⟨mid, pl, h1, h2⟩ := (seg_append _ _ _ _ _ _ _).1 h.seg
  obtain ⟨_, n, hma, h2r⟩ := h2
  rw [hma, seg_first _ _ _ _ _ h2r, seg_last _ _ _ _ _ h1]

theorem queue_base (s : MsgHeap) (l : List (Nat × wnd_msg_t)) (h : QueueRep s l) :
    s.queue.m_base = firstAddr none l :=
  seg_first _ _ _ _ _ h.seg

theorem queue_last_next (s : MsgHeap) (l1 l2 : List (Nat × wnd_msg_t))
    (h : QueueRep s (l1 ++ l2)) (hl1 : l1 ≠ []) :
    ∃ b itb, lastAddr none l1 = some b ∧ s.items b = some itb ∧
      itb.m_next = firstAddr none l2 := by
  obtain ⟨mid, pl, h1, h2⟩ := (seg_append _ _ _ _ _ _ _).1 h.seg
  have hnd1 : (l1.map Prod.fst).Nodup := by
    have := h.nodup
    simp only [List.map_append] at this
    exact (List.nodup_append.1 this).1
  obtain ⟨b, itb, hplb, _, hmb, hbn, _⟩ :=
    seg_retarget_end s.items none l1 none s.queue.m_base pl mid hnd1 h1 hl1
  refine ⟨b, itb, ?_, hmb, ?_⟩
  · rw [← seg_last _ _ _ _ _ h1, hplb]
  · rw [hbn, seg_first _ _ _ _ _ h2]

theorem lastAddr_none (l : List (Nat × wnd_msg_t)) (h : lastAddr none l = none) : l = [] := by
  by_contra hl
  obtain ⟨b, hb, _⟩ := lastAddr_mem l none hl
  rw [hb] at h
  exact absurd h (by simp)

/-! ### `wnd_msg_send` and `wnd_msg_get` -/

/-- Sending to a well-formed queue, with `malloc` returning the unused address `a`, appends
one node carrying the message. -/
theorem wnd_msg_send_spec (s : MsgHeap) (l : List (Nat × wnd_msg_t)) (w type : Nat)
    (data : wnd_msg_data_t) (a : Nat) (h : QueueRep s l) (hfresh : s.items a = none) :
    ∃ s', wnd_msg_send s (some w) type data (some a) = .ok s' ∧
      QueueRep s' (l ++ [(a, { m_wnd := some w, m_type := type, m_data := data })]) ∧
      (∀ b, b ≠ a → s.items b = none → s'.items b = none) := by
  obtain ⟨hfree, hnd, hseg⟩ := h
  have hal : a ∉ l.map Prod.fst := fun hmem => seg_live _ _ _ _ _ hseg a hmem hfresh
  have hnd' : ((l ++ [(a, ({ m_wnd := some w, m_type := type, m_data := data } : wnd_msg_t))]).map
      Prod.fst).Nodup := by
    simp only [List.map_append, List.map_cons, List.map_nil]
    rw [List.nodup_append]
    refine ⟨hnd, by simp, ?_⟩
    intro x hx1 hx2
    simp only [List.mem_singleton] at hx2
    exact hal (hx2 ▸ hx1)
  by_cases hl : l = []
  · subst hl
    obtain ⟨hbase, hlast⟩ := hseg
    refine ⟨{ queue := { m_base := some a, m_last := some a, m_mutex := false },
              items := Function.update s.items a
                (some { m_msg := { m_wnd := some w, m_type := type, m_data := data },
                        m_next := none, m_prev := none }) }, ?_, ⟨rfl, hnd', ?_⟩, ?_⟩
    · simp [wnd_msg_send, wnd_msg_lock_queue, wnd_msg_unlock_queue, item_store, hfree, hlast,
        bind, Except.bind, pure, Except.pure]
    · exact ⟨rfl, none, by simp, rfl, rfl⟩
    · intro b hba hb
      simp [Function.update_noteq hba, hb]
  · obtain ⟨b, itb, hlb, hbmem, hmb, hbn, hseg1⟩ :=
      seg_retarget_end s.items (some a) l none s.queue.m_base s.queue.m_last none hnd hseg hl
    have hab : a ≠ b := fun hab => hal (hab ▸ hbmem)
    refine ⟨{ queue := { m_base := s.queue.m_base, m_last := some a, m_mutex := false },
              items := Function.update (Function.update s.items b
                  (some { itb with m_next := some a })) a
                (some { m_msg := { m_wnd := some w, m_type := type, m_data := data },
                        m_next := none, m_prev := some b }) }, ?_, ⟨rfl, hnd', ?_⟩, ?_⟩
    · simp [wnd_msg_send, wnd_msg_lock_queue, wnd_msg_unlock_queue, item_store, item_set_next,
        item_set_prev, item_load, hfree, hlb, hmb, bind, Except.bind, pure, Except.pure,
        Function.update_apply, hab, hab.symm]
      funext x
      by_cases hxa : x = a
      · subst hxa; simp
      · by_cases hxb : x = b
        · subst hxb; simp [hxa]
        · simp [hxa, hxb]
    · refine (seg_append _ _ _ _ _ _ _).2 ⟨some a, some b, ?_, ?_⟩
      · rw [hlb] at hseg1
        refine seg_frame _ _ _ _ _ (fun x hx => ?_) hseg1
        have hxa : x ≠ a := fun hxa => hal (hxa ▸ hx)
        simp [Function.update_noteq hxa]
      · exact ⟨rfl, none, by simp, rfl, rfl⟩
    · intro x hxa hx
      have hxb : x ≠ b := by
        intro hxb; subst hxb; rw [hmb] at hx; exact absurd hx (by simp)
      simp [Function.update_noteq hxa, Function.update_noteq hxb, hx]

/-- On an empty queue `wnd_msg_get` returns `FALSE` and touches nothing. -/
theorem wnd_msg_get_nil (s : MsgHeap) (out : wnd_msg_t) (h : s.queue.m_base = none) :
    wnd_msg_get s out = .ok (false, out, s) := by
  simp [wnd_msg_get, h, bind, Except.bind, pure, Except.pure]

/-- On a well-formed non-empty queue `wnd_msg_get` returns `TRUE`, the head message and the
queue without its head. -/
theorem wnd_msg_get_cons (s : MsgHeap) (a : Nat) (msg : wnd_msg_t)
    (rest : List (Nat × wnd_msg_t)) (out : wnd_msg_t) (h : QueueRep s ((a, msg) :: rest)) :
    ∃ s', wnd_msg_get s out = .ok (true, msg, s') ∧ QueueRep s' rest ∧
      (∀ b, s.items b = none → s'.items b = none) := by
  obtain ⟨s', hrem, hrep, hfr⟩ := wnd_msg_rem_spec s [] rest a msg h
  have hbase : s.queue.m_base = some a := queue_base s _ h
  have hma := queue_node_at s [] rest a msg h
  refine ⟨s', ?_, hrep, hfr⟩
  simp [wnd_msg_get, hbase, item_load, hma, hrem, bind, Except.bind, pure, Except.pure]

/-! ### `wnd_msg_queue_remove_by_window` -/

theorem remove_by_window_loop_none (desc : Option Nat → Option Nat → Bool) (wnd : Option Nat)
    (wd : Bool) (fuel : Nat) (s : MsgHeap) :
    remove_by_window_loop desc wnd wd fuel s none = .ok s := by
  cases fuel <;> rfl

/-- The purge loop, started at the first node of `todo` in a well-formed queue
`done ++ todo`, returns (given one unit of fuel per node of `todo`) the well-formed queue
`done ++` the nodes of `todo` that fail the test. -/
theorem remove_by_window_loop_spec (desc : Option Nat → Option Nat → Bool) (wnd : Option Nat)
    (wd : Bool) :
    ∀ (todo done : List (Nat × wnd_msg_t)) (s : MsgHeap) (fuel : Nat),
      todo.length ≤ fuel → QueueRep s (done ++ todo) →
      ∃ s', remove_by_window_loop desc wnd wd fuel s (firstAddr none todo) = .ok s' ∧
        QueueRep s' (done ++ todo.filter (fun x => !purge_match desc wnd wd x.2)) ∧
        (∀ b, s.items b = none → s'.items b = none) := by
  intro todo
  induction todo with
  | nil =>
    intro done s fuel _ h
    exact ⟨s, remove_by_window_loop_none _ _ _ _ _, by simpa using h, fun _ hb => hb⟩
  | cons x rest ih =>
    obtain ⟨a, msg⟩ := x
    intro done s fuel hfuel h
    obtain ⟨f, rfl⟩ : ∃ f, fuel = f + 1 := by
      cases fuel with
      | zero => simp at hfuel
      | succ f => exact ⟨f, rfl⟩
    have hf : rest.length ≤ f := by simpa using hfuel
    have hma := queue_node_at s done rest a msg h
    by_cases hm : purge_match desc wnd wd msg = true
    · obtain ⟨s1, hrem, hrep1, hfr1⟩ := wnd_msg_rem_spec s done rest a msg h
      obtain ⟨s2, hloop, hrep2, hfr2⟩ := ih done s1 f hf hrep1
      have hm' : (decide (msg.m_wnd = wnd) || (wd && desc wnd msg.m_wnd)) = true := hm
      refine ⟨s2, ?_, by simpa [List.filter_cons, hm] using hrep2, fun b hb => hfr2 b (hfr1 b hb)⟩
      by_cases hd : done = []
      · subst hd
        have hb1 : s1.queue.m_base = firstAddr none rest := queue_base s1 _ hrep1
        simp only [firstAddr, remove_by_window_loop, item_load, hma, bind, Except.bind, hm',
          hrem, lastAddr, if_true, hb1]
        exact hloop
      · obtain ⟨b, itb, hlb, hmb, hbn⟩ := queue_last_next s1 done rest hrep1 hd
        simp only [firstAddr, remove_by_window_loop, item_load, hma, bind, Except.bind, hm',
          hrem, hlb, if_true, hmb, hbn]
        simpa using hloop
    · have hm2 : purge_match desc wnd wd msg = false := by simpa using hm
      have hm' : (decide (msg.m_wnd = wnd) || (wd && desc wnd msg.m_wnd)) = false := hm2
      have h' : QueueRep s ((done ++ [(a, msg)]) ++ rest) := by simpa using h
      obtain ⟨s2, hloop, hrep2, hfr2⟩ := ih (done ++ [(a, msg)]) s f hf h'
      refine ⟨s2, ?_, by simpa [List.filter_cons, hm2] using hrep2, hfr2⟩
      simp only [firstAddr, remove_by_window_loop, item_load, hma, bind, Except.bind, hm']
      simpa using hloop

/-- Function `wnd_msg_queue_remove_by_window` on a well-formed queue `l`, with one unit of fuel per
node, returns the well-formed queue of the nodes of `l` that fail the purge test. -/
theorem remove_by_window_spec (desc : Option Nat → Option Nat → Bool) (s : MsgHeap)
    (l : List (Nat × wnd_msg_t)) (wnd : Nat) (wd : Bool) (fuel : Nat) (hfuel : l.length ≤ fuel)
    (h : QueueRep s l) :
    ∃ s', wnd_msg_queue_remove_by_window desc fuel s (some wnd) wd = .ok s' ∧
      QueueRep s' (l.filter (fun x => !purge_match desc (some wnd) wd x.2)) ∧
      (∀ b, s.items b = none → s'.items b = none) := by
  obtain ⟨s', hloop, hrep, hfr⟩ :=
    remove_by_window_loop_spec desc (some wnd) wd l [] s fuel hfuel (by simpa using h)
  refine ⟨s', ?_, by simpa using hrep, hfr⟩
  rw [← queue_base s l h] at hloop
  simp [wnd_msg_queue_remove_by_window, bind, Except.bind, pure, Except.pure, hloop]

theorem purge_match_plain (desc : Option Nat → Option Nat → Bool) (wnd : Option Nat)
    (msg : wnd_msg_t) : purge_match desc wnd false msg = decide (msg.m_wnd = wnd) := by
  simp [purge_match]

/-! ### Producer and consumer runs -/

theorem send_all_spec :
    ∀ (l : List (Nat × wnd_msg_t)) (s : MsgHeap) (l0 : List (Nat × wnd_msg_t)),
      QueueRep s l0 → (l.map Prod.fst).Nodup → (∀ a ∈ l.map Prod.fst, s.items a = none) →
      (∀ x ∈ l, x.2.m_wnd ≠ none) →
      ∃ s', send_all s l = .ok s' ∧ QueueRep s' (l0 ++ l) := by
  intro l
  induction l with
  | nil =>
    intro s l0 h _ _ _
    exact ⟨s, rfl, by simpa using h⟩
  | cons x rest ih =>
    obtain ⟨a, msg⟩ := x
    intro s l0 h hnd hfresh hw
    simp only [List.map_cons, List.nodup_cons] at hnd
    obtain ⟨w, hwm⟩ : ∃ w, msg.m_wnd = some w :=
      Option.ne_none_iff_exists'.1 (hw (a, msg) (List.mem_cons_self _ _))
    obtain ⟨s1, hsend, hrep1, hfr1⟩ :=
      wnd_msg_send_spec s l0 w msg.m_type msg.m_data a h (hfresh a (by simp))
    have hmsg : ({ m_wnd := some w, m_type := msg.m_type, m_data := msg.m_data } : wnd_msg_t)
        = msg := by
      cases msg; simp_all
    rw [hmsg] at hrep1
    have hfresh1 : ∀ b ∈ rest.map Prod.fst, s1.items b = none := by
      intro b hb
      have hba : b ≠ a := fun hba => hnd.1 (hba ▸ hb)
      exact hfr1 b hba (hfresh b (by simp only [List.map_cons, List.mem_cons]; exact Or.inr hb))
    obtain ⟨s2, hall, hrep2⟩ := ih s1 (l0 ++ [(a, msg)]) hrep1 hnd.2 hfresh1
      (fun x hx => hw x (List.mem_cons_of_mem _ hx))
    refine ⟨s2, ?_, by simpa using hrep2⟩
    simp only [send_all, bind, Except.bind, hwm, hsend]
    exact hall

theorem get_n_spec :
    ∀ (l : List (Nat × wnd_msg_t)) (s : MsgHeap) (out : wnd_msg_t), QueueRep s l →
      ∃ s', get_n l.length s out = .ok (l.map (fun x => (true, x.2)), s') ∧ QueueRep s' [] := by
  intro l
  induction l with
  | nil =>
    intro s out h
    exact ⟨s, rfl, h⟩
  | cons x rest ih =>
    obtain ⟨a, msg⟩ := x
    intro s out h
    obtain ⟨s1, hget, hrep1, _⟩ := wnd_msg_get_cons s a msg rest out h
    obtain ⟨s2, hn, hrep2⟩ := ih s1 msg hrep1
    refine ⟨s2, ?_, hrep2⟩
    simp only [List.length_cons, get_n, bind, Except.bind, hget, hn, pure, Except.pure,
      List.map_cons]

theorem queue_init_rep (q : wnd_msg_queue_t) (mem : Nat → Option wnd_msg_queue_item_t)
    (hq : wnd_msg_queue_init true = some q) : QueueRep { queue := q, items := mem } [] := by
  simp only [wnd_msg_queue_init, if_true, Option.some.injEq] at hq
  subst hq
  exact ⟨rfl, by simp, rfl, rfl⟩

/-! ### Claims on the message queue -/

/-- C1 (FIFO order): on the empty queue made by `wnd_msg_queue_init`, after the messages of
`l` are sent in order (each into a node that `malloc` newly allocates, to a non-`NULL`
window), `l.length` successive calls of `wnd_msg_get` all return `TRUE` and yield exactly the
messages of `l` in the order sent, and the call after them returns `FALSE`. -/
theorem wnd_msg_fifo_order (q : wnd_msg_queue_t) (mem : Nat → Option wnd_msg_queue_item_t)
    (l : List (Nat × wnd_msg_t)) (out : wnd_msg_t)
    (hq : wnd_msg_queue_init true = some q)
    (hnd : (l.map Prod.fst).Nodup) (hfresh : ∀ a ∈ l.map Prod.fst, mem a = none)
    (hw : ∀ x ∈ l, x.2.m_wnd ≠ none) :
    ∃ s1 s2, send_all { queue := q, items := mem } l = .ok s1 ∧
      get_n l.length s1 out = .ok (l.map (fun x => (true, x.2)), s2) ∧
      ∀ out', wnd_msg_get s2 out' = .ok (false, out', s2) := by
  obtain ⟨s1, hsend, hrep1⟩ :=
    send_all_spec l { queue := q, items := mem } [] (queue_init_rep q mem hq) hnd hfresh hw
  obtain ⟨s2, hget, hrep2⟩ := get_n_spec l s1 out (by simpa using hrep1)
  exact ⟨s1, s2, hsend, hget, fun out' => wnd_msg_get_nil s2 out' hrep2.seg.1⟩

/-- C2 (purge of a window): on a well-formed queue `l`, with one unit of fuel per node,
`wnd_msg_queue_remove_by_window(queue, wnd, false)` returns, the queue it leaves is
well-formed, and none of its messages has `wnd` as its target. -/
theorem purge_leaves_no_message_for_window (desc : Option Nat → Option Nat → Bool)
    (s : MsgHeap) (l : List (Nat × wnd_msg_t)) (wnd : Nat) (fuel : Nat)
    (hfuel : l.length ≤ fuel) (h : QueueRep s l) :
    ∃ s' l', wnd_msg_queue_remove_by_window desc fuel s (some wnd) false = .ok s' ∧
      QueueRep s' l' ∧ ∀ x ∈ l', x.2.m_wnd ≠ some wnd := by
  obtain ⟨s', hrun, hrep, _⟩ := remove_by_window_spec desc s l wnd false fuel hfuel h
  refine ⟨s', _, hrun, hrep, ?_⟩
  intro x hx
  have := (List.mem_filter.1 hx).2
  simpa [purge_match_plain] using this

/-- C4 (purge keeps everything else): on a well-formed queue `l`,
`wnd_msg_queue_remove_by_window(queue, wnd, false)` leaves the well-formed queue whose nodes
are the filter of `l` by `target != wnd` (same nodes, same messages, same order); and after
`send(w1, A); send(w2, B); remove(w1)` on an empty queue, with `w1` and `w2` different, the
next `wnd_msg_get` yields `B` and the one after it reports the empty queue. -/
theorem purge_keeps_other_messages :
    (∀ (desc : Option Nat → Option Nat → Bool) (s : MsgHeap) (l : List (Nat × wnd_msg_t))
        (wnd fuel : Nat), l.length ≤ fuel → QueueRep s l →
        ∃ s', wnd_msg_queue_remove_by_window desc fuel s (some wnd) false = .ok s' ∧
          QueueRep s' (l.filter (fun x => decide (x.2.m_wnd ≠ some wnd)))) ∧
    (∀ (desc : Option Nat → Option Nat → Bool) (q : wnd_msg_queue_t)
        (mem : Nat → Option wnd_msg_queue_item_t) (w1 w2 tA tB : Nat) (dA dB : wnd_msg_data_t)
        (a1 a2 fuel : Nat) (out : wnd_msg_t),
        wnd_msg_queue_init true = some q → w1 ≠ w2 → a1 ≠ a2 → mem a1 = none → mem a2 = none →
        2 ≤ fuel →
        ∃ s1 s2 s3 s4, wnd_msg_send { queue := q, items := mem } (some w1) tA dA (some a1) = .ok s1 ∧
          wnd_msg_send s1 (some w2) tB dB (some a2) = .ok s2 ∧
          wnd_msg_queue_remove_by_window desc fuel s2 (some w1) false = .ok s3 ∧
          wnd_msg_get s3 out = .ok (true, { m_wnd := some w2, m_type := tB, m_data := dB }, s4) ∧
          ∀ out', wnd_msg_get s4 out' = .ok (false, out', s4)) := by
  constructor
  · intro desc s l wnd fuel hfuel h
    obtain ⟨s', hrun, hrep, _⟩ := remove_by_window_spec desc s l wnd false fuel hfuel h
    refine ⟨s', hrun, ?_⟩
    have hfun : (fun x : Nat × wnd_msg_t => !purge_match desc (some wnd) false x.2)
        = (fun x => decide (x.2.m_wnd ≠ some wnd)) := by
      funext x
      simp [purge_match_plain]
    rw [hfun] at hrep
    exact hrep
  · intro desc q mem w1 w2 tA tB dA dB a1 a2 fuel out hq hw ha hm1 hm2 hfuel
    obtain ⟨s1, hs1, hrep1, hfr1⟩ :=
      wnd_msg_send_spec _ [] w1 tA dA a1 (queue_init_rep q mem hq) hm1
    obtain ⟨s2, hs2, hrep2, _⟩ :=
      wnd_msg_send_spec s1 _ w2 tB dB a2 hrep1 (hfr1 a2 (Ne.symm ha) hm2)
    obtain ⟨s3, hs3, hrep3, _⟩ :=
      remove_by_window_spec desc s2 _ w1 false fuel (by simpa using hfuel) hrep2
    have hrep3' : QueueRep s3 [(a2, { m_wnd := some w2, m_type := tB, m_data := dB })] := by
      simpa [purge_match_plain, List.filter_cons, hw, Ne.symm hw] using hrep3
    obtain ⟨s4, hs4, hrep4, _⟩ := wnd_msg_get_cons s3 a2 _ [] out hrep3'
    exact ⟨s1, s2, s3, s4, hs1, hs2, hs3, hs4, fun out' => wnd_msg_get_nil s4 out' hrep4.seg.1⟩

/-- C5 (empty queue is a quiet result): on a well-formed queue `l`, `wnd_msg_get` returns
`FALSE` exactly when `l` is empty, and then leaves the memory and the caller's message buffer
as they were; when `l` is `(a, msg) :: rest` it returns `TRUE`, writes `msg` to the buffer and
leaves the well-formed queue `rest`. -/
theorem wnd_msg_get_empty_iff (s : MsgHeap) (l : List (Nat × wnd_msg_t)) (out : wnd_msg_t)
    (h : QueueRep s l) :
    ∃ r out' s', wnd_msg_get s out = .ok (r, out', s') ∧ (r = false ↔ l = []) ∧
      (l = [] → out' = out ∧ s' = s) ∧
      (∀ a msg rest, l = (a, msg) :: rest → r = true ∧ out' = msg ∧ QueueRep s' rest) := by
  cases l with
  | nil =>
    refine ⟨false, out, s, wnd_msg_get_nil s out h.seg.1, by simp, fun _ => ⟨rfl, rfl⟩, ?_⟩
    intro a msg rest hl
    exact absurd hl (by simp)
  | cons x rest =>
    obtain ⟨a, msg⟩ := x
    obtain ⟨s', hget, hrep, _⟩ := wnd_msg_get_cons s a msg rest out h
    refine ⟨true, msg, s', hget, by simp, fun hl => absurd hl (by simp), ?_⟩
    intro a' msg' rest' hl
    simp only [List.cons.injEq, Prod.mk.injEq] at hl
    obtain ⟨⟨_, hm⟩, hr⟩ := hl
    subst hm hr
    exact ⟨rfl, rfl, hrep⟩

/-! ### Handler chains -/

theorem chain_frame {m m' : Nat → Option wnd_msg_handler_t} :
    ∀ (l : List (Nat × Option Nat)) (head : Option Nat),
      (∀ a ∈ l.map Prod.fst, m' a = m a) → ChainLinks m l head → ChainLinks m' l head := by
  intro l
  induction l with
  | nil => intro head _ h; exact h
  | cons x rest ih =>
    obtain ⟨a, f⟩ := x
    intro head hm h
    obtain ⟨hh, n, hn, hrest⟩ := h
    refine ⟨hh, n, ?_, ih n (fun b hb => hm b (by simp at hb ⊢; exact Or.inr hb)) hrest⟩
    rw [hm a (by simp)]
    exact hn

theorem chain_live {m : Nat → Option wnd_msg_handler_t} :
    ∀ (l : List (Nat × Option Nat)) (head : Option Nat),
      ChainLinks m l head → ∀ b ∈ l.map Prod.fst, m b ≠ none := by
  intro l
  induction l with
  | nil => intro head _ b hb; simp at hb
  | cons x rest ih =>
    obtain ⟨a, f⟩ := x
    intro head h b hb
    obtain ⟨_, n, hn, hrest⟩ := h
    simp only [List.map_cons, List.mem_cons] at hb
    rcases hb with hb | hb
    · subst hb; rw [hn]; simp
    · exact ih n hrest b hb

/-- Registration on a well-formed chain, into a record that `malloc` newly allocates, puts the
record in front of the chain. -/
theorem wnd_msg_add_handler_spec (s : HandlerHeap) (l : List (Nat × Option Nat)) (f a : Nat)
    (h : ChainRep s l) (hfresh : s.handlers a = none) :
    ∃ s', wnd_msg_add_handler s (some f) (some a) = .ok s' ∧ ChainRep s' ((a, some f) :: l) ∧
      (∀ b, b ≠ a → s'.handlers b = s.handlers b) := by
  have hal : a ∉ l.map Prod.fst := fun hmem => chain_live _ _ h.links a hmem hfresh
  refine ⟨{ chain := some a,
            handlers := Function.update s.handlers a
              (some { m_func := some f, m_next := s.chain }) }, ?_, ⟨?_, ?_⟩, ?_⟩
  · by_cases hc : s.chain = none
    · simp [wnd_msg_add_handler, hc, bind, Except.bind, pure, Except.pure]
    · simp [wnd_msg_add_handler, hc, bind, Except.bind, pure, Except.pure]
  · simp only [List.map_cons, List.nodup_cons]
    exact ⟨hal, h.nodup⟩
  · refine ⟨rfl, s.chain, by simp, chain_frame _ _ (fun b hb => ?_) h.links⟩
    have hba : b ≠ a := fun hba => hal (hba ▸ hb)
    simp [Function.update_noteq hba]
  · intro b hba
    simp [Function.update_noteq hba]

theorem add_all_handlers_spec :
    ∀ (hs : List (Nat × Nat)) (s : HandlerHeap) (l : List (Nat × Option Nat)),
      ChainRep s l → (hs.map Prod.fst).Nodup → (∀ a ∈ hs.map Prod.fst, s.handlers a = none) →
      ∃ s', add_all_handlers s (hs.map (fun x => (x.1, some x.2))) = .ok s' ∧
        ChainRep s' ((hs.map (fun x => (x.1, some x.2))).reverse ++ l) := by
  intro hs
  induction hs with
  | nil =>
    intro s l h _ _
    exact ⟨s, rfl, by simpa using h⟩
  | cons x rest ih =>
    obtain ⟨a, f⟩ := x
    intro s l h hnd hfresh
    simp only [List.map_cons, List.nodup_cons] at hnd
    obtain ⟨s1, hadd, hrep1, hfr1⟩ := wnd_msg_add_handler_spec s l f a h (hfresh a (by simp))
    have hfresh1 : ∀ b ∈ rest.map Prod.fst, s1.handlers b = none := by
      intro b hb
      have hba : b ≠ a := fun hba => hnd.1 (hba ▸ hb)
      rw [hfr1 b hba]
      exact hfresh b (by simp only [List.map_cons, List.mem_cons]; exact Or.inr hb)
    obtain ⟨s2, hall, hrep2⟩ := ih s1 _ hrep1 hnd.2 hfresh1
    refine ⟨s2, ?_, by simpa using hrep2⟩
    simp only [List.map_cons, add_all_handlers, bind, Except.bind, hadd]
    exact hall

/-- Removal from a well-formed non-empty chain frees the head record and leaves the rest. -/
theorem wnd_msg_rem_handler_spec (s : HandlerHeap) (a : Nat) (f : Option Nat)
    (rest : List (Nat × Option Nat)) (h : ChainRep s ((a, f) :: rest)) :
    ∃ s', wnd_msg_rem_handler s = .ok s' ∧ ChainRep s' rest ∧ s'.handlers a = none := by
  obtain ⟨hnd, hc, n, hn, hrest⟩ := h
  simp only [List.map_cons, List.nodup_cons] at hnd
  refine ⟨{ chain := n, handlers := Function.update s.handlers a none }, ?_, ⟨hnd.2, ?_⟩, ?_⟩
  · simp [wnd_msg_rem_handler, hc, hn]
  · refine chain_frame _ _ (fun b hb => ?_) hrest
    have hba : b ≠ a := fun hba => hnd.1 (hba ▸ hb)
    simp [Function.update_noteq hba]
  · simp

/-- C6 (handler registration prepends): on a well-formed chain `l`, `wnd_msg_add_handler`
with a handler `f` and a newly allocated record `a` leaves the well-formed chain
`(a, f) :: l`: the head is `f`, the rest is the previous chain in its order; and registering
`h1, ..., hn` on the empty chain leaves the chain `[hn, ..., h1]`. -/
theorem wnd_msg_add_handler_prepends :
    (∀ (s : HandlerHeap) (l : List (Nat × Option Nat)) (f a : Nat), ChainRep s l →
        s.handlers a = none →
        ∃ s', wnd_msg_add_handler s (some f) (some a) = .ok s' ∧
          ChainRep s' ((a, some f) :: l)) ∧
    (∀ (s : HandlerHeap) (hs : List (Nat × Nat)), ChainRep s [] → (hs.map Prod.fst).Nodup →
        (∀ a ∈ hs.map Prod.fst, s.handlers a = none) →
        ∃ s', add_all_handlers s (hs.map (fun x => (x.1, some x.2))) = .ok s' ∧
          ChainRep s' (hs.reverse.map (fun x => (x.1, some x.2)))) := by
  constructor
  · intro s l f a h hfresh
    obtain ⟨s', hadd, hrep, _⟩ := wnd_msg_add_handler_spec s l f a h hfresh
    exact ⟨s', hadd, hrep⟩
  · intro s hs h hnd hfresh
    obtain ⟨s', hall, hrep⟩ := add_all_handlers_spec hs s [] h hnd hfresh
    refine ⟨s', hall, ?_⟩
    simpa [List.map_reverse] using hrep

/-- C7 (stack discipline): on a well-formed non-empty chain `wnd_msg_rem_handler` removes
exactly the head record and leaves the well-formed chain of the remaining records in their
order; and `wnd_msg_add_handler` with a newly allocated record followed by
`wnd_msg_rem_handler` gives back the chain slot and the handler memory it started from. -/
theorem wnd_msg_handler_stack_discipline :
    (∀ (s : HandlerHeap) (a : Nat) (f : Option Nat) (rest : List (Nat × Option Nat)),
        ChainRep s ((a, f) :: rest) →
        ∃ s', wnd_msg_rem_handler s = .ok s' ∧ ChainRep s' rest) ∧
    (∀ (s : HandlerHeap) (f a : Nat), s.handlers a = none →
        (wnd_msg_add_handler s (some f) (some a) >>= wnd_msg_rem_handler) = .ok s) := by
  constructor
  · intro s a f rest h
    obtain ⟨s', hrem, hrep, _⟩ := wnd_msg_rem_handler_spec s a f rest h
    exact ⟨s', hrem, hrep⟩
  · intro s f a hfresh
    have hupd : Function.update
        (Function.update s.handlers a (some { m_func := some f, m_next := s.chain })) a none
        = s.handlers := by
      funext b
      by_cases hba : b = a
      · subst hba; simp [hfresh]
      · simp [Function.update_noteq hba]
    by_cases hc : s.chain = none
    · simp [wnd_msg_add_handler, wnd_msg_rem_handler, hc, bind, Except.bind, pure, Except.pure]
      cases s
      simp_all
    · simp [wnd_msg_add_handler, wnd_msg_rem_handler, hc, bind, Except.bind, pure, Except.pure]
      cases s
      simp_all

/-! ### Dialog items -/

theorem itemchain_ne {h : WndHeap} {di p n : Nat} (hc : ItemChain h di p n) : p ≠ di := by
  cases hc with
  | dialog _ _ hne _ _ => exact hne
  | item _ _ _ _ _ _ hne _ _ _ _ _ _ _ => exact hne

theorem itemchain_frame {h h' : WndHeap} {di : Nat}
    (hagree : ∀ p, p ≠ di → ∀ o, h p = some o →
      ∃ o', h' p = some o' ∧ o'.wnd.m_class_name = o.wnd.m_class_name ∧
        o'.wnd.m_parent = o.wnd.m_parent ∧ o'.item = o.item) :
    ∀ {p n : Nat}, ItemChain h di p n → ItemChain h' di p n := by
  intro p n hc
  induction hc with
  | dialog p o hne ho hcls =>
    obtain ⟨o', ho', hc', _, _⟩ := hagree p hne o ho
    exact ItemChain.dialog p o' hne ho' (hc'.trans hcls)
  | item p pa n o po d hne ho hcls hitem hpar hpo hd hrest ih =>
    obtain ⟨o', ho', hc', hp', hi'⟩ := hagree p hne o ho
    obtain ⟨po', hpo', hpc', _, hpi'⟩ := hagree pa (itemchain_ne hrest) po hpo
    refine ItemChain.item p pa n o' po' d hne ho' (by rw [hc']; exact hcls) (hi'.trans hitem)
      (hp'.trans hpar) hpo' ?_ ih
    rw [hpc', hpi']
    exact hd

theorem itemchain_frame_other {h h' : WndHeap} {di x : Nat}
    (hagree : ∀ p, p ≠ di → ∀ o, h p = some o →
      ∃ o', h' p = some o' ∧ o'.wnd.m_class_name = o.wnd.m_class_name ∧
        o'.wnd.m_parent = o.wnd.m_parent ∧ o'.item = o.item) :
    ∀ {p n : Nat}, ItemChain h di p n → ∀ {m : Nat}, ItemChain h x p m → ItemChain h' x p n := by
  intro p n hc
  induction hc with
  | dialog p o hne ho hcls =>
    intro m hx
    obtain ⟨o', ho', hc', _, _⟩ := hagree p hne o ho
    exact ItemChain.dialog p o' (itemchain_ne hx) ho' (hc'.trans hcls)
  | item p pa n o po d hne ho hcls hitem hpar hpo hd hrest ih =>
    intro m hx
    obtain ⟨o', ho', hc', hp', hi'⟩ := hagree p hne o ho
    obtain ⟨po', hpo', hpc', _, hpi'⟩ := hagree pa (itemchain_ne hrest) po hpo
    cases hx with
    | dialog _ o2 hnx ho2 hcls2 =>
      rw [ho] at ho2
      simp only [Option.some.injEq] at ho2
      subst ho2
      exact absurd hcls2 hcls
    | item _ pa2 m2 o2 po2 d2 hnx ho2 _ _ hpar2 _ _ hrest2 =>
      rw [ho] at ho2
      simp only [Option.some.injEq] at ho2
      subst ho2
      rw [hpar] at hpar2
      simp only [Option.some.injEq] at hpar2
      subst hpar2
      refine ItemChain.item p pa n o' po' d hnx ho' (by rw [hc']; exact hcls) (hi'.trans hitem)
        (hp'.trans hpar) hpo' ?_ (ih hrest2)
      rw [hpc', hpi']
      exact hd

theorem itemchain_nearest {h : WndHeap} {di : Nat} :
    ∀ {p n : Nat}, ItemChain h di p n →
      ∃ o, h p = some o ∧
        nearest_dialog h (n + 1) (some p) =
          (if o.wnd.m_class_name = "dialog" then some p
           else match o.item with
             | some d => d.m_dialog
             | none => none) := by
  intro p n hc
  induction hc with
  | dialog p o hne ho hcls =>
    exact ⟨o, ho, by simp [nearest_dialog, wnd_load, ho, hcls]⟩
  | item p pa n o po d hne ho hcls hitem hpar hpo hd hrest ih =>
    obtain ⟨po2, hpo2, hnear⟩ := ih
    rw [hpo] at hpo2
    simp only [Option.some.injEq] at hpo2
    subst hpo2
    refine ⟨o, ho, ?_⟩
    rw [nearest_dialog]
    simp only [wnd_load, ho, hcls, if_false, hpar, hitem, hd]
    exact hnear

theorem dlgitem_construct_eval (B : Nat) (res : dlgitem_alloc) (h : WndHeap) (di parent : Nat)
    (o po : wnd_obj) (d0 : dlgitem_fields) (title id : Option String) (gs sp : Option Nat)
    (flags : Nat) (hb : res.base = true) (hk : res.keydown ≠ reg_outcome.asserts)
    (hd : res.destructor ≠ reg_outcome.asserts)
    (hdi : h di = some o) (hitem : o.item = some d0) (hpa : h parent = some po)
    (hne : parent ≠ di)
    (hpd : po.wnd.m_class_name ≠ "dialog" → po.item ≠ none) :
    ∃ w' po' idv, dlgitem_construct B res h (some di) (some parent) title id gs sp flags =
      .ok (true, Function.update (Function.update h parent (some po')) di
        (some ⟨w', some ⟨idv, gs, sp, flags,
          if po.wnd.m_class_name = "dialog" then some parent
          else match po.item with
            | some pd => pd.m_dialog
            | none => none⟩⟩)) ∧
      po'.wnd.m_class_name = po.wnd.m_class_name ∧ po'.wnd.m_parent = po.wnd.m_parent ∧
      po'.item = po.item ∧ w'.m_parent = some parent ∧
      w'.m_class_name = o.wnd.m_class_name ∧
      w'.m_on_keydown = (if res.keydown = reg_outcome.registered
        then [wnd_handler_fn.dlgitem_on_keydown] else []) ∧
      w'.m_destructor = (if res.destructor = reg_outcome.registered
        then [wnd_handler_fn.dlgitem_destructor] else []) ∧
      idv = (match id with
        | none => none
        | some v => strdup res.id_copy v) := by
  obtain ⟨base, kd, ds, idc⟩ := res
  simp only at hb hk hd
  subst hb
  refine ⟨{ (wnd_base_init o.wnd po.wnd parent title 0 0 0 0
      (if flags &&& B ≠ 0 then WND_FLAG_BORDER ||| WND_FLAG_CAPTION else 0)) with
      m_on_keydown := (if kd = reg_outcome.registered
        then [wnd_handler_fn.dlgitem_on_keydown] else []),
      m_destructor := (if ds = reg_outcome.registered
        then [wnd_handler_fn.dlgitem_destructor] else []) },
    { po with wnd := { po.wnd with m_children := di :: po.wnd.m_children } },
    (match id with
      | none => none
      | some v => strdup idc v), ?_, rfl, rfl, rfl, rfl, rfl, rfl, rfl, rfl⟩
  by_cases hcls : po.wnd.m_class_name = "dialog"
  · cases kd <;> cases ds <;>
      first
      | exact absurd rfl hk
      | exact absurd rfl hd
      | simp [dlgitem_construct, wnd_construct, wnd_msg_add_handler_named, dlgitem_store,
          wnd_load, dlgitem_load, hdi, hitem, hpa, hne, hcls, bind, Except.bind, pure,
          Except.pure, Function.update_apply, wnd_base_init]
  · obtain ⟨pd, hpd'⟩ := Option.ne_none_iff_exists'.1 (hpd hcls)
    cases kd <;> cases ds <;>
      first
      | exact absurd rfl hk
      | exact absurd rfl hd
      | simp [dlgitem_construct, wnd_construct, wnd_msg_add_handler_named, dlgitem_store,
          wnd_load, dlgitem_load, hdi, hitem, hpa, hne, hcls, hpd', bind, Except.bind, pure,
          Except.pure, Function.update_apply, wnd_base_init]

theorem itemchain_parent_item {h : WndHeap} {di p n : Nat} (hc : ItemChain h di p n) :
    ∃ o, h p = some o ∧ (o.wnd.m_class_name ≠ "dialog" → o.item ≠ none) := by
  cases hc with
  | dialog _ o _ ho hcls => exact ⟨o, ho, fun hn => absurd hcls hn⟩
  | item _ _ _ o _ d _ ho _ hitem _ _ _ _ => exact ⟨o, ho, fun _ => by rw [hitem]; simp⟩

/-- C8 (dialog-item default keydown): for a window `wnd` whose parent is the live window
`pa`, `dlgitem_on_keydown` returns the pass-to-parent code exactly when the parent's mode is
`WND_MODE_REPOSITION` or `WND_MODE_RESIZE`, returns `WND_MSG_RETCODE_OK` when the parent's
mode is `WND_MODE_NORMAL`, and returns the same for every key. -/
theorem dlgitem_on_keydown_defers_to_parent (h : WndHeap) (wnd pa : Nat) (o po : wnd_obj)
    (key : Nat) (hw : h wnd = some o) (hp : o.wnd.m_parent = some pa) (hpa : h pa = some po) :
    (dlgitem_on_keydown h (some wnd) key =
        .ok wnd_msg_retcode_t.WND_MSG_RETCODE_PASS_TO_PARENT ↔
      (po.wnd.m_mode = wnd_mode_t.WND_MODE_REPOSITION ∨
        po.wnd.m_mode = wnd_mode_t.WND_MODE_RESIZE)) ∧
    (po.wnd.m_mode = wnd_mode_t.WND_MODE_NORMAL →
      dlgitem_on_keydown h (some wnd) key = .ok wnd_msg_retcode_t.WND_MSG_RETCODE_OK) ∧
    (∀ key', dlgitem_on_keydown h (some wnd) key' = dlgitem_on_keydown h (some wnd) key) := by
  refine ⟨?_, ?_, fun key' => rfl⟩
  · by_cases hm : po.wnd.m_mode = wnd_mode_t.WND_MODE_REPOSITION ∨
        po.wnd.m_mode = wnd_mode_t.WND_MODE_RESIZE
    · simp [dlgitem_on_keydown, wnd_load, hw, hp, hpa, hm, bind, Except.bind, pure, Except.pure]
    · simp [dlgitem_on_keydown, wnd_load, hw, hp, hpa, hm, bind, Except.bind, pure, Except.pure]
  · intro hm
    simp [dlgitem_on_keydown, wnd_load, hw, hp, hpa, hm, bind, Except.bind, pure, Except.pure]

/-- C9 (dialog back-reference): let `di` be an object with room for the dialog item fields and
let the windows from `parent` upwards to the first window of class "dialog" be dialog items
(other than `di`) whose `m_dialog` was stored by the assignment of `dlgitem_construct`.  Then
`dlgitem_construct`, when the base construction succeeds (and, whether or not the handler
records and the copy of `id` can be allocated, no registration stops at a failed assertion),
returns `TRUE` and leaves in
`di->m_dialog` the nearest window of class "dialog" above `di`: the parent itself when the
parent is a "dialog", otherwise the parent's own `m_dialog`.  The value is stored by
`dlgitem_construct` alone: `dlgitem_destructor` leaves the window memory as it is.  The item
just built is in turn an ancestor "built the same way" for any further object `x`. -/
theorem dlgitem_construct_dialog_backref (B : Nat) (res : dlgitem_alloc) (h : WndHeap)
    (di parent n : Nat)
    (o : wnd_obj) (d0 : dlgitem_fields) (title id : Option String) (gs sp : Option Nat)
    (flags : Nat) (hb : res.base = true) (hk : res.keydown ≠ reg_outcome.asserts)
    (hd : res.destructor ≠ reg_outcome.asserts)
    (hdi : h di = some o) (hitem : o.item = some d0)
    (hchain : ItemChain h di parent n) :
    ∃ h' o' d' po',
      dlgitem_construct B res h (some di) (some parent) title id gs sp flags = .ok (true, h') ∧
      h' di = some o' ∧ o'.item = some d' ∧ o'.wnd.m_parent = some parent ∧
      h' parent = some po' ∧
      d'.m_dialog = nearest_dialog h' (n + 1) o'.wnd.m_parent ∧
      d'.m_dialog = (if po'.wnd.m_class_name = "dialog" then some parent
        else match po'.item with
          | some pd => pd.m_dialog
          | none => none) ∧
      dlgitem_destructor h' (some di) = .ok h' ∧
      (∀ x m, x ≠ di → ItemChain h x parent m → ∃ k, ItemChain h' x di k) := by
  have hne : parent ≠ di := itemchain_ne hchain
  obtain ⟨po, hpo, hpd⟩ := itemchain_parent_item hchain
  obtain ⟨w', po', idv, heval, hcls', hpar', hitem', hwp, hwc, _, _, _⟩ :=
    dlgitem_construct_eval B res h di parent o po d0 title id gs sp flags hb hk hd hdi hitem
      hpo hne hpd
  have hparent' : Function.update (Function.update h parent (some po')) di
      (some ⟨w', some ⟨idv, gs, sp, flags,
        if po.wnd.m_class_name = "dialog" then some parent
        else match po.item with
          | some pd => pd.m_dialog
          | none => none⟩⟩) parent = some po' := by
    simp [Function.update_noteq hne]
  have hagree : ∀ p, p ≠ di → ∀ x, h p = some x →
      ∃ x', Function.update (Function.update h parent (some po')) di
        (some ⟨w', some ⟨idv, gs, sp, flags,
          if po.wnd.m_class_name = "dialog" then some parent
          else match po.item with
            | some pd => pd.m_dialog
            | none => none⟩⟩) p = some x' ∧
        x'.wnd.m_class_name = x.wnd.m_class_name ∧ x'.wnd.m_parent = x.wnd.m_parent ∧
        x'.item = x.item := by
    intro p hp x hx
    by_cases hpp : p = parent
    · subst hpp
      rw [hpo] at hx
      simp only [Option.some.injEq] at hx
      subst hx
      exact ⟨po', by simp [Function.update_noteq hp], hcls', hpar', hitem'⟩
    · exact ⟨x, by simp [Function.update_noteq hp, Function.update_noteq hpp, hx], rfl, rfl, rfl⟩
  have hchain' := itemchain_frame hagree hchain
  obtain ⟨po2, hpo2, hnear⟩ := itemchain_nearest hchain'
  rw [hparent'] at hpo2
  simp only [Option.some.injEq] at hpo2
  subst hpo2
  refine ⟨_, _, _, po', heval, Function.update_same _ _ _, rfl, hwp, hparent', ?_, ?_, ?_, ?_⟩
  · simp only [hwp]
    rw [hnear, hcls', hitem']
  · simp only [hcls', hitem']
  · simp [dlgitem_destructor, dlgitem_load, bind, Except.bind, pure, Except.pure]
  · intro x m hx hxc
    have hxc' := itemchain_frame_other hagree hchain hxc
    by_cases hdc : o.wnd.m_class_name = "dialog"
    · exact ⟨0, ItemChain.dialog di _ (Ne.symm hx) (Function.update_same _ _ _)
        (hwc.trans hdc)⟩
    · refine ⟨n + 1, ItemChain.item di parent n _ po' _ (Ne.symm hx)
        (Function.update_same _ _ _) ?_ rfl hwp hparent' ?_ hxc'⟩
      · show w'.m_class_name ≠ "dialog"
        rw [hwc]
        exact hdc
      · simp only [hcls', hitem']

/-! ### Purge with descendants, allocation failure -/

/-- C3 (purge with descendants), the code at a failing input: in `ex_tree` the window 2
is a descendant of the window 1 (`wnd_is_descendant(2, 1)` as declared), and the queue
`ex_queue` holds messages for the windows 1, 1, 2, 1.  After
`wnd_msg_queue_remove_by_window(queue, 1, true)` the message for the descendant 2 is still
queued; and after `wnd_msg_queue_remove_by_window(queue, 2, true)` the messages for its
ancestor 1 are gone as well: the call passes `(wnd, target)` to `wnd_is_descendant`, so it
tests whether `wnd` descends from the target. -/
theorem purge_with_descendants_keeps_descendant_message :
    wnd_is_descendant ex_tree 8 (some 2) (some 1) = true ∧
    (∃ s', wnd_msg_queue_remove_by_window (wnd_is_descendant ex_tree 8) 4 ex_queue
        (some 1) true = .ok s' ∧
      queue_messages s' 4 s'.queue.m_base = [ex_msg 2 2]) ∧
    (∃ s', wnd_msg_queue_remove_by_window (wnd_is_descendant ex_tree 8) 4 ex_queue
        (some 2) true = .ok s' ∧
      queue_messages s' 4 s'.queue.m_base = []) :=
  ⟨rfl, ⟨_, rfl, rfl⟩, ⟨_, rfl, rfl⟩⟩

/-- C10 (allocation failure on enqueue), the code at the failing input: when `malloc`
returns `NULL` for the queue node, `wnd_msg_send` never returns normally, whatever the queue;
on a queue with a free mutex and for a non-`NULL` window it writes through the `NULL` node
pointer. -/
theorem wnd_msg_send_alloc_failure_faults :
    (∀ (s : MsgHeap) (wnd : Option Nat) (type : Nat) (data : wnd_msg_data_t),
      ∃ e, wnd_msg_send s wnd type data none = .error e) ∧
    (∀ (q : wnd_msg_queue_t) (mem : Nat → Option wnd_msg_queue_item_t) (w type : Nat)
        (data : wnd_msg_data_t),
      wnd_msg_send { queue := { q with m_mutex := false }, items := mem } (some w) type data none
        = .error Fault.invalid_access) := by
  constructor
  · intro s wnd type data
    by_cases hw : wnd = none
    · exact ⟨Fault.assertion, by simp [wnd_msg_send, hw, bind, Except.bind, throw, throwThe,
        MonadExceptOf.throw]⟩
    · by_cases hm : s.queue.m_mutex = true
      · exact ⟨Fault.deadlock, by simp [wnd_msg_send, wnd_msg_lock_queue, hw, hm, bind,
          Except.bind, pure, Except.pure]⟩
      · exact ⟨Fault.invalid_access, by simp [wnd_msg_send, wnd_msg_lock_queue, hw, hm, bind,
          Except.bind, pure, Except.pure, throw, throwThe, MonadExceptOf.throw]⟩
  · intro q mem w type data
    simp [wnd_msg_send, wnd_msg_lock_queue, bind, Except.bind, pure, Except.pure, throw,
      throwThe, MonadExceptOf.throw]

/-! ### The claims at concrete inputs -/

/-- The example queue is well-formed. -/
theorem ex_queue_rep : QueueRep ex_queue ex_nodes :=
  ⟨rfl, by decide, ⟨rfl, _, rfl, rfl, _, rfl, rfl, _, rfl, rfl, _, rfl, rfl, rfl⟩⟩

/-- The empty example chain is well-formed. -/
theorem ex_empty_chain_rep : ChainRep ex_empty_chain [] :=
  ⟨List.nodup_nil, rfl⟩

/-- The one-record example chain is well-formed. -/
theorem ex_chain_rep : ChainRep ex_chain [(20, some 7)] :=
  ⟨by decide, ⟨rfl, _, rfl, rfl⟩⟩

/-- C1 at three messages sent to the empty queue. -/
theorem wnd_msg_fifo_order_witness :
    ∃ s1 s2, send_all ex_empty_queue [(10, ex_msg 1 0), (11, ex_msg 2 1), (12, ex_msg 1 2)]
        = .ok s1 ∧
      get_n 3 s1 (ex_msg 0 0)
        = .ok ([(true, ex_msg 1 0), (true, ex_msg 2 1), (true, ex_msg 1 2)], s2) ∧
      ∀ out', wnd_msg_get s2 out' = .ok (false, out', s2) :=
  wnd_msg_fifo_order { m_base := none, m_last := none, m_mutex := false } (fun _ => none)
    [(10, ex_msg 1 0), (11, ex_msg 2 1), (12, ex_msg 1 2)] (ex_msg 0 0) rfl (by decide)
    (fun _ _ => rfl) (by decide)

/-- C2 at the example queue, whose messages for window 1 are adjacent at the head and at
the tail. -/
theorem purge_leaves_no_message_for_window_witness :
    QueueRep ex_queue ex_nodes ∧
    ∃ s' l', wnd_msg_queue_remove_by_window (fun _ _ => false) 4 ex_queue (some 1) false = .ok s' ∧
      QueueRep s' l' ∧ ∀ x ∈ l', x.2.m_wnd ≠ some 1 :=
  ⟨ex_queue_rep,
    purge_leaves_no_message_for_window (fun _ _ => false) ex_queue ex_nodes 1 4 (by decide)
      ex_queue_rep⟩

/-- C4 at the example queue and at the scenario with the windows 1 and 2. -/
theorem purge_keeps_other_messages_witness :
    (∃ s', wnd_msg_queue_remove_by_window (fun _ _ => false) 4 ex_queue (some 1) false = .ok s' ∧
      QueueRep s' (ex_nodes.filter (fun x => decide (x.2.m_wnd ≠ some 1)))) ∧
    (∃ s1 s2 s3 s4, wnd_msg_send ex_empty_queue (some 1) 0 ⟨none, none⟩ (some 10) = .ok s1 ∧
      wnd_msg_send s1 (some 2) 5 ⟨none, none⟩ (some 11) = .ok s2 ∧
      wnd_msg_queue_remove_by_window (fun _ _ => false) 2 s2 (some 1) false = .ok s3 ∧
      wnd_msg_get s3 (ex_msg 0 0) = .ok (true, ex_msg 2 5, s4) ∧
      ∀ out', wnd_msg_get s4 out' = .ok (false, out', s4)) :=
  ⟨purge_keeps_other_messages.1 (fun _ _ => false) ex_queue ex_nodes 1 4 (by decide) ex_queue_rep,
    purge_keeps_other_messages.2 (fun _ _ => false)
      { m_base := none, m_last := none, m_mutex := false } (fun _ => none) 1 2 0 5
      ⟨none, none⟩ ⟨none, none⟩ 10 11 2 (ex_msg 0 0) rfl (by decide) (by decide) rfl rfl
      (by decide)⟩

/-- C5 at the example queue. -/
theorem wnd_msg_get_empty_iff_witness :
    QueueRep ex_queue ex_nodes ∧
    ∃ r out' s', wnd_msg_get ex_queue (ex_msg 0 0) = .ok (r, out', s') ∧
      (r = false ↔ ex_nodes = []) ∧ (ex_nodes = [] → out' = ex_msg 0 0 ∧ s' = ex_queue) ∧
      (∀ a msg rest, ex_nodes = (a, msg) :: rest → r = true ∧ out' = msg ∧ QueueRep s' rest) :=
  ⟨ex_queue_rep, wnd_msg_get_empty_iff ex_queue ex_nodes (ex_msg 0 0) ex_queue_rep⟩

/-- C6 at the one-record chain and at three registrations on the empty chain. -/
theorem wnd_msg_add_handler_prepends_witness :
    (∃ s', wnd_msg_add_handler ex_chain (some 8) (some 21) = .ok s' ∧
      ChainRep s' [(21, some 8), (20, some 7)]) ∧
    (∃ s', add_all_handlers ex_empty_chain [(20, some 7), (21, some 8), (22, some 9)] = .ok s' ∧
      ChainRep s' [(22, some 9), (21, some 8), (20, some 7)]) :=
  ⟨wnd_msg_add_handler_prepends.1 ex_chain [(20, some 7)] 8 21 ex_chain_rep rfl,
    wnd_msg_add_handler_prepends.2 ex_empty_chain [(20, 7), (21, 8), (22, 9)] ex_empty_chain_rep
      (by decide) (fun _ _ => rfl)⟩

/-- C7 at the one-record chain. -/
theorem wnd_msg_handler_stack_discipline_witness :
    (∃ s', wnd_msg_rem_handler ex_chain = .ok s' ∧ ChainRep s' []) ∧
    (wnd_msg_add_handler ex_chain (some 8) (some 21) >>= wnd_msg_rem_handler) = .ok ex_chain :=
  ⟨wnd_msg_handler_stack_discipline.1 ex_chain 20 (some 7) [] ex_chain_rep,
    wnd_msg_handler_stack_discipline.2 ex_chain 8 21 rfl⟩

/-- In the built example tree the item 3 sits below the dialog 2 and holds it in
`m_dialog`. -/
theorem ex_tree_built_chain : ItemChain ex_tree_built 4 3 1 :=
  ItemChain.item 3 2 0 _ _ _ (by decide) rfl (by decide) rfl rfl rfl rfl
    (ItemChain.dialog 2 _ (by decide) rfl rfl)

/-- C8 at the item 3 below the dialog in reposition mode, and at the dialog below the root
in normal mode. -/
theorem dlgitem_on_keydown_defers_to_parent_witness :
    dlgitem_on_keydown ex_tree_built (some 3) 65 =
        .ok wnd_msg_retcode_t.WND_MSG_RETCODE_PASS_TO_PARENT ∧
      dlgitem_on_keydown ex_tree (some 2) 65 = .ok wnd_msg_retcode_t.WND_MSG_RETCODE_OK :=
  ⟨(dlgitem_on_keydown_defers_to_parent ex_tree_built 3 2 _ _ 65 rfl rfl rfl).1.2 (Or.inl rfl),
    (dlgitem_on_keydown_defers_to_parent ex_tree 2 1 _ _ 65 rfl rfl rfl).2.1 rfl⟩

/-- C9 at the item 4 built below the item 3, itself built below the dialog 2. -/
theorem dlgitem_construct_dialog_backref_witness :
    ItemChain ex_tree_built 4 3 1 ∧
    ∃ h' o' d' po',
      dlgitem_construct 1 all_available ex_tree_built (some 4) (some 3) none (some "name") none
        none 0 = .ok (true, h') ∧
      h' 4 = some o' ∧ o'.item = some d' ∧ o'.wnd.m_parent = some 3 ∧ h' 3 = some po' ∧
      d'.m_dialog = nearest_dialog h' 2 o'.wnd.m_parent ∧
      d'.m_dialog = (if po'.wnd.m_class_name = "dialog" then some 3
        else match po'.item with
          | some pd => pd.m_dialog
          | none => none) ∧
      dlgitem_destructor h' (some 4) = .ok h' ∧
      (∀ x m, x ≠ 4 → ItemChain ex_tree_built x 3 m → ∃ k, ItemChain h' x 4 k) :=
  ⟨ex_tree_built_chain,
    dlgitem_construct_dialog_backref 1 all_available ex_tree_built 4 3 1 _ _ none (some "name")
      none none 0 rfl (by decide) (by decide) rfl rfl ex_tree_built_chain⟩

/-! ### Allocation failure on registration, construction of dialog items -/

/-- C11 (allocation failure on handler registration), as stated, fails: with `malloc`
returning `NULL` for the record, `wnd_msg_add_handler` on the one-record chain does not
return to its caller at all; it stops at `assert(handler)`. -/
theorem wnd_msg_add_handler_alloc_failure_aborts :
    wnd_msg_add_handler ex_chain (some 8) none = .error Fault.assertion ∧
      ¬ ∃ s', wnd_msg_add_handler ex_chain (some 8) none = .ok s' := by
  constructor
  · rfl
  · rintro ⟨s', hs⟩
    have hfail : wnd_msg_add_handler ex_chain (some 8) none = .error Fault.assertion := rfl
    rw [hfail] at hs
    cases hs

theorem wnd_msg_add_handler_mem_outcome (s : HandlerHeap) (h handler : Option Nat) :
    wnd_msg_add_handler s h handler =
      match wnd_msg_add_handler_mem s h handler with
      | (s', none) => .ok s'
      | (_, some e) => .error e := by
  cases h with
  | none => rfl
  | some f =>
    cases handler with
    | none => rfl
    | some a =>
      by_cases hc : s.chain = none
      · simp [wnd_msg_add_handler, wnd_msg_add_handler_mem, bind, Except.bind, pure,
          Except.pure, hc]
      · simp [wnd_msg_add_handler, wnd_msg_add_handler_mem, bind, Except.bind, pure,
          Except.pure, hc, Function.update_idem]

/-- C11 as amended: for every chain and every handler, when `malloc` returns `NULL` for the
handler record, `wnd_msg_add_handler` ends in a failed assertion (`assert(h)` or
`assert(handler)`) and reports no result; the assertion comes before every write, so the call
stops with the chain slot and every handler record exactly as they were at entry: no record is
linked and nothing is written. -/
theorem wnd_msg_add_handler_alloc_failure_asserts (s : HandlerHeap) (h : Option Nat) :
    wnd_msg_add_handler s h none = .error Fault.assertion ∧
      wnd_msg_add_handler_mem s h none = (s, some Fault.assertion) ∧
      (wnd_msg_add_handler_mem s h none).1.chain = s.chain ∧
      (wnd_msg_add_handler_mem s h none).1.handlers = s.handlers := by
  cases h <;>
    simp [wnd_msg_add_handler, wnd_msg_add_handler_mem, bind, Except.bind, throw, throwThe,
      MonadExceptOf.throw, pure, Except.pure]

theorem int_wrap_of_is_int (z : Int) (h : is_int z) : int_wrap z = z := by
  unfold is_int INT_MIN INT_MAX at h
  unfold int_wrap
  omega

theorem int_add_assoc (a b c : Int) : int_add (int_add a b) c = int_add a (int_add b c) := by
  unfold int_add int_wrap
  omega

theorem int_sub_translate (c a b : Int) : int_sub (int_add c a) (int_add c b) = int_sub a b := by
  unfold int_sub int_add int_wrap
  omega

/-- C14 (coordinate transforms are offset compositions), on C `int`s.  In `int` arithmetic,
for every window and all coordinates: `WND_CLIENT2ABS_X/Y` is the client origin plus the
coordinate, `WND_CLIENT2SCREEN_X/Y` is the screen origin plus `WND_CLIENT2ABS_X/Y` of the same
coordinate, that is `m_screen + m_client + coordinate`, and each of the four preserves the
difference of two client coordinates.  Whenever the sums involved are values of `int` (no
overflow), the same equalities hold for the mathematical sums and differences. -/
theorem wnd_client_transforms_are_translations (wnd : wnd_t) (x y x' y' : Int) :
    (WND_CLIENT2ABS_X wnd x = int_add wnd.m_client_x x ∧
      WND_CLIENT2ABS_Y wnd y = int_add wnd.m_client_y y ∧
      WND_CLIENT2SCREEN_X wnd x = int_add wnd.m_screen_x (WND_CLIENT2ABS_X wnd x) ∧
      WND_CLIENT2SCREEN_Y wnd y = int_add wnd.m_screen_y (WND_CLIENT2ABS_Y wnd y) ∧
      WND_CLIENT2SCREEN_X wnd x = int_add (int_add wnd.m_screen_x wnd.m_client_x) x ∧
      WND_CLIENT2SCREEN_Y wnd y = int_add (int_add wnd.m_screen_y wnd.m_client_y) y ∧
      int_sub (WND_CLIENT2ABS_X wnd x) (WND_CLIENT2ABS_X wnd x') = int_sub x x' ∧
      int_sub (WND_CLIENT2ABS_Y wnd y) (WND_CLIENT2ABS_Y wnd y') = int_sub y y' ∧
      int_sub (WND_CLIENT2SCREEN_X wnd x) (WND_CLIENT2SCREEN_X wnd x') = int_sub x x' ∧
      int_sub (WND_CLIENT2SCREEN_Y wnd y) (WND_CLIENT2SCREEN_Y wnd y') = int_sub y y') ∧
    (is_int (wnd.m_client_x + x) → WND_CLIENT2ABS_X wnd x = wnd.m_client_x + x) ∧
    (is_int (wnd.m_client_y + y) → WND_CLIENT2ABS_Y wnd y = wnd.m_client_y + y) ∧
    (is_int (wnd.m_client_x + x) → is_int (wnd.m_screen_x + wnd.m_client_x + x) →
      WND_CLIENT2SCREEN_X wnd x = wnd.m_screen_x + WND_CLIENT2ABS_X wnd x ∧
      WND_CLIENT2SCREEN_X wnd x = wnd.m_screen_x + wnd.m_client_x + x) ∧
    (is_int (wnd.m_client_y + y) → is_int (wnd.m_screen_y + wnd.m_client_y + y) →
      WND_CLIENT2SCREEN_Y wnd y = wnd.m_screen_y + WND_CLIENT2ABS_Y wnd y ∧
      WND_CLIENT2SCREEN_Y wnd y = wnd.m_screen_y + wnd.m_client_y + y) ∧
    (is_int (wnd.m_client_x + x) → is_int (wnd.m_client_x + x') →
      WND_CLIENT2ABS_X wnd x - WND_CLIENT2ABS_X wnd x' = x - x') ∧
    (is_int (wnd.m_client_y + y) → is_int (wnd.m_client_y + y') →
      WND_CLIENT2ABS_Y wnd y - WND_CLIENT2ABS_Y wnd y' = y - y') ∧
    (is_int (wnd.m_screen_x + wnd.m_client_x + x) →
      is_int (wnd.m_screen_x + wnd.m_client_x + x') →
      WND_CLIENT2SCREEN_X wnd x - WND_CLIENT2SCREEN_X wnd x' = x - x') ∧
    (is_int (wnd.m_screen_y + wnd.m_client_y + y) →
      is_int (wnd.m_screen_y + wnd.m_client_y + y') →
      WND_CLIENT2SCREEN_Y wnd y - WND_CLIENT2SCREEN_Y wnd y' = y - y') := by
  have hsx : ∀ t, WND_CLIENT2SCREEN_X wnd t = int_wrap (wnd.m_screen_x + wnd.m_client_x + t) := by
    intro t
    unfold WND_CLIENT2SCREEN_X int_add int_wrap
    omega
  have hsy : ∀ t, WND_CLIENT2SCREEN_Y wnd t = int_wrap (wnd.m_screen_y + wnd.m_client_y + t) := by
    intro t
    unfold WND_CLIENT2SCREEN_Y int_add int_wrap
    omega
  refine ⟨⟨rfl, rfl, int_add_assoc _ _ _, int_add_assoc _ _ _, rfl, rfl,
    int_sub_translate _ _ _, int_sub_translate _ _ _, ?_, ?_⟩, ?_, ?_, ?_, ?_, ?_, ?_, ?_, ?_⟩
  · rw [WND_CLIENT2SCREEN_X, WND_CLIENT2SCREEN_X, int_add_assoc, int_add_assoc,
      int_sub_translate, int_sub_translate]
  · rw [WND_CLIENT2SCREEN_Y, WND_CLIENT2SCREEN_Y, int_add_assoc, int_add_assoc,
      int_sub_translate, int_sub_translate]
  · intro h
    exact int_wrap_of_is_int _ h
  · intro h
    exact int_wrap_of_is_int _ h
  · intro h1 h2
    have ha : WND_CLIENT2ABS_X wnd x = wnd.m_client_x + x := int_wrap_of_is_int _ h1
    rw [ha, hsx, int_wrap_of_is_int _ h2]
    exact ⟨by ring, rfl⟩
  · intro h1 h2
    have ha : WND_CLIENT2ABS_Y wnd y = wnd.m_client_y + y := int_wrap_of_is_int _ h1
    rw [ha, hsy, int_wrap_of_is_int _ h2]
    exact ⟨by ring, rfl⟩
  · intro h1 h2
    have ha : WND_CLIENT2ABS_X wnd x = wnd.m_client_x + x := int_wrap_of_is_int _ h1
    have hb : WND_CLIENT2ABS_X wnd x' = wnd.m_client_x + x' := int_wrap_of_is_int _ h2
    rw [ha, hb]
    ring
  · intro h1 h2
    have ha : WND_CLIENT2ABS_Y wnd y = wnd.m_client_y + y := int_wrap_of_is_int _ h1
    have hb : WND_CLIENT2ABS_Y wnd y' = wnd.m_client_y + y' := int_wrap_of_is_int _ h2
    rw [ha, hb]
    ring
  · intro h1 h2
    rw [hsx, hsx, int_wrap_of_is_int _ h1, int_wrap_of_is_int _ h2]
    ring
  · intro h1 h2
    rw [hsy, hsy, int_wrap_of_is_int _ h1, int_wrap_of_is_int _ h2]
    ring

/-- C14 at a window whose client origin is the greatest `int`: at `x = 1` the `int` sum wraps
to the least `int` and the identities hold in `int` arithmetic; at `x = -5` and `x = -9` the
sums are in range and the difference of the results is the difference of the coordinates. -/
theorem wnd_client_transforms_are_translations_witness :
    WND_CLIENT2ABS_X ex_wnd_far 1 = -2147483648 ∧
    WND_CLIENT2SCREEN_X ex_wnd_far 1 = int_add 3 (WND_CLIENT2ABS_X ex_wnd_far 1) ∧
    int_sub (WND_CLIENT2ABS_X ex_wnd_far 1) (WND_CLIENT2ABS_X ex_wnd_far 0) = int_sub 1 0 ∧
    (is_int (2147483647 + -5) ∧ is_int (2147483647 + -9) ∧
      WND_CLIENT2ABS_X ex_wnd_far (-5) - WND_CLIENT2ABS_X ex_wnd_far (-9) = -5 - -9) :=
  ⟨(wnd_client_transforms_are_translations ex_wnd_far 1 0 0 0).1.1.trans (by decide),
    (wnd_client_transforms_are_translations ex_wnd_far 1 0 0 0).1.2.2.1,
    (wnd_client_transforms_are_translations ex_wnd_far 1 0 0 0).1.2.2.2.2.2.2.1,
    by unfold is_int INT_MIN INT_MAX; decide,
    by unfold is_int INT_MIN INT_MAX; decide,
    (wnd_client_transforms_are_translations ex_wnd_far (-5) 0 (-9) 0).2.2.2.2.2.1
      (by unfold is_int INT_MIN INT_MAX; decide) (by unfold is_int INT_MIN INT_MAX; decide)⟩

/-- C15 (size negotiation): for a dialog item `di`, `dlgitem_get_size` leaves in the outputs
exactly what the installed `m_get_size` capability leaves when called as
`m_get_size(di, width, height)`, and writes `(0, 0)` to them, whatever they held, when no
capability is installed. -/
theorem dlgitem_get_size_negotiates
    (call : Nat → WndHeap → Option Nat → Int × Int → WndHeap × Int × Int) (h : WndHeap)
    (di : Nat) (o : wnd_obj) (d : dlgitem_fields) (width height : Int)
    (hdi : h di = some o) (hitem : o.item = some d) :
    (∀ f, d.m_get_size = some f →
      dlgitem_get_size call h (some di) width height = .ok (call f h (some di) (width, height))) ∧
    (d.m_get_size = none →
      dlgitem_get_size call h (some di) width height = .ok (h, 0, 0)) := by
  constructor
  · intro f hf
    simp [dlgitem_get_size, dlgitem_load, hdi, hitem, hf, bind, Except.bind, pure, Except.pure]
  · intro hf
    simp [dlgitem_get_size, dlgitem_load, hdi, hitem, hf, bind, Except.bind, pure, Except.pure]

theorem inp_spec_unchecked_quiet (p : Option in_plugin_t) (index : Int) (filename : String)
    (hg : ¬ spec_index_ok p index) :
    inp_get_spec_title p index = .ok (none, []) ∧
    inp_get_spec_flags p index = .ok (0, []) ∧
    inp_spec_func p index filename = .ok ([], []) := by
  cases p with
  | none => exact ⟨rfl, rfl, rfl⟩
  | some pl =>
    cases ht : pl.m_pd.m_spec_funcs with
    | none =>
      refine ⟨?_, ?_, ?_⟩
      · simp only [inp_get_spec_title, ht]
        split_ifs <;> rfl
      · simp only [inp_get_spec_flags, ht]
        split_ifs <;> rfl
      · simp only [inp_spec_func, ht]
    | some table =>
      by_cases h0 : 0 ≤ index
      · by_cases h1 : index < pl.m_pd.m_num_spec_funcs
        · exact absurd ⟨pl, table, rfl, ht, h0, h1⟩ hg
        · simp [inp_get_spec_title, inp_get_spec_flags, inp_spec_func, ht, h0, h1]
      · simp [inp_get_spec_title, inp_get_spec_flags, inp_spec_func, ht, h0]

/-- C19 (special-function index is bounds-checked): unless `p` is not `NULL`, the table is
present and `0 <= index < m_num_spec_funcs`, the three accessors read no table entry and
return `NULL`, return `0`, and call nothing; whenever one of them reads the table, that guard
holds and the entry read is the one at `index`. -/
theorem inp_spec_index_is_checked (p : Option in_plugin_t) (index : Int) (filename : String) :
    (¬ spec_index_ok p index →
      inp_get_spec_title p index = .ok (none, []) ∧
      inp_get_spec_flags p index = .ok (0, []) ∧
      inp_spec_func p index filename = .ok ([], [])) ∧
    (∀ r, inp_get_spec_title p index = .ok r → r.2 ≠ [] →
      spec_index_ok p index ∧ ∀ i ∈ r.2, i = index) ∧
    (∀ r, inp_get_spec_flags p index = .ok r → r.2 ≠ [] →
      spec_index_ok p index ∧ ∀ i ∈ r.2, i = index) ∧
    (∀ r, inp_spec_func p index filename = .ok r → (r.2 ≠ [] ∨ r.1 ≠ []) →
      spec_index_ok p index ∧ ∀ i ∈ r.2, i = index) := by
  have hnot := inp_spec_unchecked_quiet p index filename
  by_cases hg : spec_index_ok p index
  · refine ⟨fun hn => absurd hg hn, ?_, ?_, ?_⟩
    · intro r hr _
      refine ⟨hg, ?_⟩
      obtain ⟨pl, table, rfl, ht, h0, h1⟩ := hg
      cases hrd : spec_funcs_read table index with
      | error e =>
        simp [inp_get_spec_title, ht, h0, h1, hrd, bind, Except.bind] at hr
      | ok e =>
        simp [inp_get_spec_title, ht, h0, h1, hrd, bind, Except.bind, pure, Except.pure] at hr
        subst hr
        simp
    · intro r hr _
      refine ⟨hg, ?_⟩
      obtain ⟨pl, table, rfl, ht, h0, h1⟩ := hg
      cases hrd : spec_funcs_read table index with
      | error e =>
        simp [inp_get_spec_flags, ht, h0, h1, hrd, bind, Except.bind] at hr
      | ok e =>
        simp [inp_get_spec_flags, ht, h0, h1, hrd, bind, Except.bind, pure, Except.pure] at hr
        subst hr
        simp
    · intro r hr _
      refine ⟨hg, ?_⟩
      obtain ⟨pl, table, rfl, ht, h0, h1⟩ := hg
      cases hrd : spec_funcs_read table index with
      | error e =>
        simp [inp_spec_func, ht, h0, h1, hrd, bind, Except.bind] at hr
      | ok e =>
        cases hf : e.m_func with
        | none =>
          simp [inp_spec_func, ht, h0, h1, hrd, hf, bind, Except.bind, pure, Except.pure] at hr
          subst hr
          simp
        | some f =>
          simp [inp_spec_func, ht, h0, h1, hrd, hf, bind, Except.bind, pure, Except.pure] at hr
          subst hr
          simp
  · obtain ⟨h1, h2, h3⟩ := hnot hg
    refine ⟨fun _ => ⟨h1, h2, h3⟩, ?_, ?_, ?_⟩
    · intro r hr hne
      rw [h1] at hr
      cases hr
      exact absurd rfl hne
    · intro r hr hne
      rw [h2] at hr
      cases hr
      exact absurd rfl hne
    · intro r hr hne
      rw [h3] at hr
      cases hr
      rcases hne with hne | hne <;> exact absurd rfl hne

/-- C20 (plugin flag precedence): `inp_get_flags(p)` is the value of the `get_plugin_flags`
callback when `p` is not `NULL`, the callback is installed and its value is not zero;
otherwise it is `m_pd.m_flags` of a non-`NULL` `p`; and it is `0` for a `NULL` `p`. -/
theorem inp_get_flags_precedence (call : Nat → Nat) :
    (∀ (pl : in_plugin_t) (f : Nat), pl.m_pd.m_get_plugin_flags = some f → call f ≠ 0 →
      inp_get_flags call (some pl) = call f ∧ inp_get_plugin_flags call (some pl) = call f) ∧
    (∀ (pl : in_plugin_t),
      (pl.m_pd.m_get_plugin_flags = none ∨
        ∃ f, pl.m_pd.m_get_plugin_flags = some f ∧ call f = 0) →
      inp_get_flags call (some pl) = pl.m_pd.m_flags) ∧
    inp_get_flags call none = 0 := by
  refine ⟨?_, ?_, rfl⟩
  · intro pl f hf hv
    simp [inp_get_flags, inp_get_plugin_flags, hf, hv]
  · intro pl hcb
    rcases hcb with hcb | ⟨f, hf, hv⟩
    · simp [inp_get_flags, inp_get_plugin_flags, hcb]
    · simp [inp_get_flags, inp_get_plugin_flags, hf, hv]

/-- C15 at the built item 3 of the example tree (no capability installed) and at an item with
the capability 5 installed, which asks for 20 by 1 cells. -/
theorem dlgitem_get_size_negotiates_witness :
    dlgitem_get_size (fun _ h _ _ => (h, 20, 1)) ex_tree_built (some 3) 7 9
        = .ok (ex_tree_built, 0, 0) ∧
    dlgitem_get_size (fun _ h _ _ => (h, 20, 1))
        (heap_after (dlgitem_construct 1 all_available ex_tree (some 3) (some 2) none none (some 5) none 0)
          ex_tree) (some 3) 7 9
      = .ok (heap_after (dlgitem_construct 1 all_available ex_tree (some 3) (some 2) none none (some 5)
          none 0) ex_tree, 20, 1) :=
  ⟨(dlgitem_get_size_negotiates (fun _ h _ _ => (h, 20, 1)) ex_tree_built 3 _ _ 7 9 rfl rfl).2
      rfl,
    (dlgitem_get_size_negotiates (fun _ h _ _ => (h, 20, 1))
      (heap_after (dlgitem_construct 1 all_available ex_tree (some 3) (some 2) none none (some 5) none 0)
        ex_tree) 3 _ _ 7 9 rfl rfl).1 5 rfl⟩

/-- C19 at the example plugin: index 2 is past its two special functions, index 0 is read. -/
theorem inp_spec_index_is_checked_witness :
    (inp_get_spec_title (some ex_plugin) 2 = .ok (none, []) ∧
      inp_get_spec_flags (some ex_plugin) 2 = .ok (0, []) ∧
      inp_spec_func (some ex_plugin) 2 "a.mid" = .ok ([], [])) ∧
    (spec_index_ok (some ex_plugin) 0 ∧
      ∀ i ∈ ([(30, "a.mid")], [(0 : Int), 0]).2, i = 0) :=
  ⟨(inp_spec_index_is_checked (some ex_plugin) 2 "a.mid").1
      (by
        rintro ⟨pl, t, hp, _, _, h1⟩
        cases hp
        exact absurd h1 (by decide)),
    (inp_spec_index_is_checked (some ex_plugin) 0 "a.mid").2.2.2 ([(30, "a.mid")], [0, 0]) rfl
      (Or.inl (by decide))⟩

/-- C20 at the example plugin, with a callback that returns 8 and with one that returns 0. -/
theorem inp_get_flags_precedence_witness :
    (inp_get_flags (fun _ => 8) (some ex_plugin) = 8 ∧
      inp_get_plugin_flags (fun _ => 8) (some ex_plugin) = 8) ∧
    inp_get_flags (fun _ => 0) (some ex_plugin) = 4 :=
  ⟨(inp_get_flags_precedence (fun _ => 8)).1 ex_plugin 31 rfl (by decide),
    (inp_get_flags_precedence (fun _ => 0)).2.1 ex_plugin (Or.inr ⟨31, rfl, rfl⟩)⟩

/-! ### Lock balance -/

theorem lockSafe_bind {α β : Type} {P : β → Prop} (r : Except Fault α) (f : α → Except Fault β)
    (Q : α → Prop) (hr : LockSafe Q r) (hf : ∀ v, Q v → LockSafe P (f v)) :
    LockSafe P (r >>= f) := by
  cases r with
  | error e => exact hr
  | ok v => exact hf v hr

theorem lockSafe_item_load (s : MsgHeap) (p : Option Nat) :
    LockSafe (fun _ => True) (item_load s p) := by
  unfold item_load
  split
  · exact ⟨by decide, by decide⟩
  · split
    · exact ⟨by decide, by decide⟩
    · trivial

theorem lockSafe_item_set_prev (s : MsgHeap) (p v : Option Nat) :
    LockSafe (fun s' => s'.queue = s.queue) (item_set_prev s p v) := by
  have hl := lockSafe_item_load s p
  unfold item_set_prev
  split
  · rfl
  · exact ⟨by decide, by decide⟩
  · next e h => rw [h] at hl; exact hl

theorem lockSafe_item_set_next (s : MsgHeap) (p v : Option Nat) :
    LockSafe (fun s' => s'.queue = s.queue) (item_set_next s p v) := by
  have hl := lockSafe_item_load s p
  unfold item_set_next
  split
  · rfl
  · exact ⟨by decide, by decide⟩
  · next e h => rw [h] at hl; exact hl

theorem lockSafe_item_free (s : MsgHeap) (p : Option Nat) :
    LockSafe (fun s' => s'.queue = s.queue) (item_free s p) := by
  have hl := lockSafe_item_load s p
  unfold item_free
  split
  · rfl
  · exact ⟨by decide, by decide⟩
  · next e h => rw [h] at hl; exact hl

theorem lockSafe_lock (s : MsgHeap) (hfree : s.queue.m_mutex = false) :
    LockSafe (fun s' => s'.queue.m_mutex = true) (wnd_msg_lock_queue s) := by
  simp [wnd_msg_lock_queue, hfree, LockSafe]

theorem lockSafe_unlock (s : MsgHeap) (hheld : s.queue.m_mutex = true) :
    LockSafe (fun s' => s'.queue.m_mutex = false) (wnd_msg_unlock_queue s) := by
  simp [wnd_msg_unlock_queue, hheld, LockSafe]

theorem lockSafe_pure {α : Type} {P : α → Prop} (v : α) (h : P v) :
    LockSafe P (pure v : Except Fault α) := h

theorem lockSafe_rem (s : MsgHeap) (item : Option Nat) (hfree : s.queue.m_mutex = false) :
    LockSafe (fun s' => s'.queue.m_mutex = false) (wnd_msg_rem s item) := by
  have tail3 : ∀ s3 : MsgHeap, s3.queue.m_mutex = true →
      LockSafe (fun s' => s'.queue.m_mutex = false)
        (item_free s3 item >>= wnd_msg_unlock_queue) := by
    intro s3 h3
    refine lockSafe_bind _ _ _ (lockSafe_item_free s3 item) (fun s4 h4 => ?_)
    exact lockSafe_unlock s4 (by rw [h4]; exact h3)
  have tail2 : ∀ s2 : MsgHeap, s2.queue.m_mutex = true →
      LockSafe (fun s' => s'.queue.m_mutex = false)
        (item_load s2 item >>= fun it =>
          if it.m_prev ≠ none then
            item_set_next s2 it.m_prev it.m_next >>= fun s3 =>
              item_free s3 item >>= wnd_msg_unlock_queue
          else
            pure { s2 with queue := { s2.queue with m_base := it.m_next } } >>= fun s3 =>
              item_free s3 item >>= wnd_msg_unlock_queue) := by
    intro s2 h2
    refine lockSafe_bind _ _ _ (lockSafe_item_load s2 item) (fun it2 _ => ?_)
    split_ifs with hp
    · refine lockSafe_bind _ _ _ (lockSafe_item_set_next s2 _ _) (fun s3 h3 => ?_)
      exact tail3 s3 (by rw [h3]; exact h2)
    · exact lockSafe_bind _ _ (fun s' => s'.queue.m_mutex = true)
        (lockSafe_pure _ h2) tail3
  unfold wnd_msg_rem
  split_ifs with hi
  · exact ⟨by decide, by decide⟩
  · refine lockSafe_bind _ _ (fun _ => True) trivial (fun _ _ => ?_)
    refine lockSafe_bind _ _ _ (lockSafe_lock s hfree) (fun s1 h1 => ?_)
    refine lockSafe_bind _ _ _ (lockSafe_item_load s1 item) (fun it _ => ?_)
    split_ifs with hn
    · refine lockSafe_bind _ _ _ (lockSafe_item_set_prev s1 _ _) (fun s2 h2 => ?_)
      exact tail2 s2 (by rw [h2]; exact h1)
    · exact lockSafe_bind _ _ (fun s' => s'.queue.m_mutex = true)
        (lockSafe_pure _ h1) tail2

theorem lockSafe_send (s : MsgHeap) (wnd : Option Nat) (type : Nat) (data : wnd_msg_data_t)
    (node : Option Nat) (hfree : s.queue.m_mutex = false) :
    LockSafe (fun s' => s'.queue.m_mutex = false) (wnd_msg_send s wnd type data node) := by
  unfold wnd_msg_send
  split_ifs with hw
  · exact ⟨by decide, by decide⟩
  · refine lockSafe_bind _ _ (fun _ => True) trivial (fun _ _ => ?_)
    refine lockSafe_bind _ _ _ (lockSafe_lock s hfree) (fun s1 h1 => ?_)
    cases node with
    | none => exact ⟨by decide, by decide⟩
    | some a =>
      simp only []
      split_ifs with hl
      · refine lockSafe_bind _ _ (fun s' => s'.queue.m_mutex = true) (lockSafe_pure _ h1)
          (fun s2 h2 => lockSafe_unlock s2 h2)
      · refine lockSafe_bind _ _ _ (lockSafe_item_set_next _ _ _) (fun s2 h2 => ?_)
        refine lockSafe_bind _ _ _ (lockSafe_item_set_prev _ _ _) (fun s3 h3 => ?_)
        refine lockSafe_bind _ _ (fun s' => s'.queue.m_mutex = true) (lockSafe_pure _ ?_)
          (fun s4 h4 => lockSafe_unlock s4 h4)
        show s3.queue.m_mutex = true
        rw [h3, h2]
        exact h1

theorem lockSafe_get (s : MsgHeap) (msg : wnd_msg_t) (hfree : s.queue.m_mutex = false) :
    LockSafe (fun r => r.2.2.queue.m_mutex = false) (wnd_msg_get s msg) := by
  unfold wnd_msg_get
  split_ifs with hb
  · exact hfree
  · refine lockSafe_bind _ _ (fun _ => True) trivial (fun _ _ => ?_)
    refine lockSafe_bind _ _ _ (lockSafe_item_load s _) (fun it _ => ?_)
    refine lockSafe_bind _ _ _ (lockSafe_rem s _ hfree) (fun s2 h2 => ?_)
    exact h2

theorem lockSafe_remove_loop (desc : Option Nat → Option Nat → Bool) (wnd : Option Nat)
    (wd : Bool) :
    ∀ (fuel : Nat) (s : MsgHeap) (item : Option Nat), s.queue.m_mutex = false →
      LockSafe (fun s' => s'.queue.m_mutex = false)
        (remove_by_window_loop desc wnd wd fuel s item) := by
  intro fuel
  induction fuel with
  | zero =>
    intro s item hfree
    cases item with
    | none => exact hfree
    | some a => exact ⟨by decide, by decide⟩
  | succ f ih =>
    intro s item hfree
    cases item with
    | none => exact hfree
    | some a =>
      unfold remove_by_window_loop
      refine lockSafe_bind _ _ _ (lockSafe_item_load s _) (fun it _ => ?_)
      simp only []
      split_ifs with hm hp
      · refine lockSafe_bind _ _ _ (lockSafe_rem s _ hfree) (fun s2 h2 => ?_)
        exact ih s2 _ h2
      · refine lockSafe_bind _ _ _ (lockSafe_rem s _ hfree) (fun s2 h2 => ?_)
        refine lockSafe_bind _ _ _ (lockSafe_item_load s2 _) (fun p _ => ?_)
        exact ih s2 _ h2
      · exact ih s _ hfree

theorem lockSafe_remove_by_window (desc : Option Nat → Option Nat → Bool) (fuel : Nat)
    (s : MsgHeap) (wnd : Option Nat) (wd : Bool) (hfree : s.queue.m_mutex = false) :
    LockSafe (fun s' => s'.queue.m_mutex = false)
      (wnd_msg_queue_remove_by_window desc fuel s wnd wd) := by
  unfold wnd_msg_queue_remove_by_window
  split_ifs with hw
  · exact ⟨by decide, by decide⟩
  · refine lockSafe_bind _ _ (fun _ => True) trivial (fun _ _ => ?_)
    exact lockSafe_remove_loop desc wnd wd fuel s _ hfree

theorem lockSafe_elim {α : Type} {P : α → Prop} {r : Except Fault α} (h : LockSafe P r) :
    r ≠ .error Fault.deadlock ∧ r ≠ .error Fault.unlock_free ∧ ∀ v, r = .ok v → P v := by
  cases r with
  | error e =>
    refine ⟨?_, ?_, ?_⟩
    · intro he; cases he; exact h.1 rfl
    · intro he; cases he; exact h.2 rfl
    · intro v hv; cases hv
  | ok v =>
    refine ⟨by simp, by simp, ?_⟩
    intro v' hv
    cases hv
    exact h

/-- C17 (lock balance): started with the queue mutex free, each of `wnd_msg_send`,
`wnd_msg_rem`, `wnd_msg_get` and `wnd_msg_queue_remove_by_window`, whatever the queue memory
and the arguments, never locks the mutex while it holds it, never unlocks it while it is free,
and has the mutex free whenever it returns. -/
theorem wnd_msg_lock_balance (s : MsgHeap) (hfree : s.queue.m_mutex = false) :
    (∀ wnd type data node,
      wnd_msg_send s wnd type data node ≠ .error Fault.deadlock ∧
      wnd_msg_send s wnd type data node ≠ .error Fault.unlock_free ∧
      ∀ s', wnd_msg_send s wnd type data node = .ok s' → s'.queue.m_mutex = false) ∧
    (∀ item,
      wnd_msg_rem s item ≠ .error Fault.deadlock ∧
      wnd_msg_rem s item ≠ .error Fault.unlock_free ∧
      ∀ s', wnd_msg_rem s item = .ok s' → s'.queue.m_mutex = false) ∧
    (∀ msg,
      wnd_msg_get s msg ≠ .error Fault.deadlock ∧
      wnd_msg_get s msg ≠ .error Fault.unlock_free ∧
      ∀ r, wnd_msg_get s msg = .ok r → r.2.2.queue.m_mutex = false) ∧
    (∀ desc fuel wnd wd,
      wnd_msg_queue_remove_by_window desc fuel s wnd wd ≠ .error Fault.deadlock ∧
      wnd_msg_queue_remove_by_window desc fuel s wnd wd ≠ .error Fault.unlock_free ∧
      ∀ s', wnd_msg_queue_remove_by_window desc fuel s wnd wd = .ok s' →
        s'.queue.m_mutex = false) :=
  ⟨fun wnd type data node => lockSafe_elim (lockSafe_send s wnd type data node hfree),
    fun item => lockSafe_elim (lockSafe_rem s item hfree),
    fun msg => lockSafe_elim (lockSafe_get s msg hfree),
    fun desc fuel wnd wd => lockSafe_elim (lockSafe_remove_by_window desc fuel s wnd wd hfree)⟩

/-- C17 at the example queue. -/
theorem wnd_msg_lock_balance_witness :
    ex_queue.queue.m_mutex = false ∧
    (∀ item,
      wnd_msg_rem ex_queue item ≠ .error Fault.deadlock ∧
      wnd_msg_rem ex_queue item ≠ .error Fault.unlock_free ∧
      ∀ s', wnd_msg_rem ex_queue item = .ok s' → s'.queue.m_mutex = false) :=
  ⟨rfl, (wnd_msg_lock_balance ex_queue rfl).2.1⟩

/-! ### Queue teardown -/

theorem queue_free_loop_spec :
    ∀ (l : List (Nat × wnd_msg_t)) (s : MsgHeap) (prev first last : Option Nat) (fuel : Nat),
      (l.map Prod.fst).Nodup → Seg s.items prev l first last none → l.length ≤ fuel →
      ∃ s', queue_free_loop fuel s first = .ok (s', free_events l) ∧ s'.queue = s.queue := by
  intro l
  induction l with
  | nil =>
    intro s prev first last fuel _ hseg _
    obtain ⟨hf, _⟩ := hseg
    subst hf
    refine ⟨s, ?_, rfl⟩
    cases fuel <;> rfl
  | cons x rest ih =>
    obtain ⟨a, msg⟩ := x
    intro s prev first last fuel hnd hseg hfuel
    obtain ⟨f, rfl⟩ : ∃ f, fuel = f + 1 := by
      cases fuel with
      | zero => simp at hfuel
      | succ f => exact ⟨f, rfl⟩
    obtain ⟨hf, n, hma, hrest⟩ := hseg
    subst hf
    simp only [List.map_cons, List.nodup_cons] at hnd
    have hrest' : Seg (Function.update s.items a none) (some a) rest n last none := by
      refine seg_frame _ _ _ _ _ (fun b hb => ?_) hrest
      have hba : b ≠ a := fun hba => hnd.1 (hba ▸ hb)
      simp [Function.update_noteq hba]
    obtain ⟨s', hloop, hq⟩ := ih { s with items := Function.update s.items a none } (some a) n
      last f hnd.2 hrest' (by simpa using hfuel)
    refine ⟨s', ?_, hq⟩
    simp only [queue_free_loop, item_load, item_free, hma, bind, Except.bind, hloop, pure,
      Except.pure, free_events]

/-- Teardown of a well-formed queue `l`, with one unit of fuel per node. -/
theorem wnd_msg_queue_free_spec (s : MsgHeap) (l : List (Nat × wnd_msg_t)) (fuel : Nat)
    (h : QueueRep s l) (hfuel : l.length ≤ fuel) :
    wnd_msg_queue_free fuel s
      = .ok (free_events l ++ [FreeEvent.mutex_destroy, FreeEvent.free_queue]) := by
  obtain ⟨hfree, hnd, hseg⟩ := h
  obtain ⟨s', hloop, hq⟩ := queue_free_loop_spec l
    { s with queue := { s.queue with m_mutex := true } } none s.queue.m_base s.queue.m_last fuel
    hnd hseg hfuel
  have hm : s'.queue.m_mutex = true := by rw [hq]
  dsimp only at hloop
  simp [wnd_msg_queue_free, wnd_msg_lock_queue, wnd_msg_unlock_queue, hfree, bind,
    Except.bind, hloop, hm, pure, Except.pure]

/-- C18 (payload release at queue teardown): on a well-formed queue `l`, with one unit of
fuel per node, `wnd_msg_queue_free` returns after visiting the nodes of `l` once each, head to
tail: its events are, node after node, those of `wnd_msg_free` on the node's message followed
by the release of the node, then the destruction of the mutex and the release of the header.
For a message, `wnd_msg_free` calls the destructor once when payload and destructor are both
not `NULL`, and then releases the payload; it releases the payload without a call when the
destructor is `NULL`; it does nothing when the payload is `NULL`. -/
theorem wnd_msg_queue_free_releases_payloads :
    (∀ (s : MsgHeap) (l : List (Nat × wnd_msg_t)) (fuel : Nat), QueueRep s l →
        l.length ≤ fuel →
        wnd_msg_queue_free fuel s
          = .ok (free_events l ++ [FreeEvent.mutex_destroy, FreeEvent.free_queue])) ∧
    (∀ (a : Nat) (msg : wnd_msg_t) (rest : List (Nat × wnd_msg_t)),
        free_events ((a, msg) :: rest)
          = wnd_msg_free msg ++ [FreeEvent.free_item a] ++ free_events rest) ∧
    (∀ (msg : wnd_msg_t),
        (destructor_calls (wnd_msg_free msg) = 1 ↔
          (msg.m_data.m_data ≠ none ∧ msg.m_data.m_destructor ≠ none)) ∧
        (destructor_calls (wnd_msg_free msg) = 0 ↔
          ¬ (msg.m_data.m_data ≠ none ∧ msg.m_data.m_destructor ≠ none)) ∧
        (∀ d f, msg.m_data.m_data = some d → msg.m_data.m_destructor = some f →
          wnd_msg_free msg = [FreeEvent.destructor f d, FreeEvent.free_data d]) ∧
        (∀ d, msg.m_data.m_data = some d → msg.m_data.m_destructor = none →
          wnd_msg_free msg = [FreeEvent.free_data d]) ∧
        (msg.m_data.m_data = none → wnd_msg_free msg = [])) := by
  refine ⟨fun s l fuel h hfuel => wnd_msg_queue_free_spec s l fuel h hfuel,
    fun a msg rest => rfl, ?_⟩
  intro msg
  cases hd : msg.m_data.m_data with
  | none => simp [wnd_msg_free, hd, destructor_calls]
  | some d =>
    cases hf : msg.m_data.m_destructor with
    | none => simp [wnd_msg_free, hd, hf, destructor_calls]
    | some f => simp [wnd_msg_free, hd, hf, destructor_calls]

/-- The payload example queue is well-formed. -/
theorem ex_payload_queue_rep : QueueRep ex_payload_queue ex_payload_nodes :=
  ⟨rfl, by decide, ⟨rfl, _, rfl, rfl, _, rfl, rfl, _, rfl, rfl, rfl⟩⟩

/-- C18 at the payload example queue: one destructor call and two payload releases. -/
theorem wnd_msg_queue_free_releases_payloads_witness :
    QueueRep ex_payload_queue ex_payload_nodes ∧
    wnd_msg_queue_free 3 ex_payload_queue
      = .ok [FreeEvent.destructor 60 50, FreeEvent.free_data 50, FreeEvent.free_item 10,
          FreeEvent.free_data 51, FreeEvent.free_item 11, FreeEvent.free_item 12,
          FreeEvent.mutex_destroy, FreeEvent.free_queue] :=
  ⟨ex_payload_queue_rep,
    wnd_msg_queue_free_releases_payloads.1 ex_payload_queue ex_payload_nodes 3
      ex_payload_queue_rep (by decide)⟩

/-! ### Queue well-formedness on the pointers -/

theorem lastAddr_snoc :
    ∀ (l : List (Nat × wnd_msg_t)) (prev : Option Nat) (a : Nat) (m : wnd_msg_t),
      lastAddr prev (l ++ [(a, m)]) = some a := by
  intro l
  induction l with
  | nil => intro prev a m; rfl
  | cons x rest ih =>
    obtain ⟨c, mc⟩ := x
    intro prev a m
    exact ih (some c) a m

theorem lastAddr_getLast :
    ∀ (l : List (Nat × wnd_msg_t)) (prev : Option Nat),
      lastAddr prev l = match (l.map Prod.fst).getLast? with
        | some x => some x
        | none => prev := by
  intro l
  induction l with
  | nil => intro prev; rfl
  | cons x rest ih =>
    obtain ⟨c, mc⟩ := x
    intro prev
    rw [lastAddr, ih (some c)]
    cases rest with
    | nil => rfl
    | cons y rest2 =>
      cases hg : ((y :: rest2).map Prod.fst).getLast? with
      | none => simp at hg
      | some z =>
        simp only [List.map_cons] at hg
        simp only [List.map_cons, List.getLast?_cons_cons, hg]

theorem lastAddr_some_split (l : List (Nat × wnd_msg_t)) (a : Nat)
    (h : lastAddr none l = some a) : ∃ l0 m, l = l0 ++ [(a, m)] := by
  rcases List.eq_nil_or_concat l with hl | ⟨l0, x, hl⟩
  · subst hl
    simp [lastAddr] at h
  · obtain ⟨c, m⟩ := x
    subst hl
    rw [List.concat_eq_append, lastAddr_snoc] at h
    simp only [Option.some.injEq] at h
    subst h
    exact ⟨l0, m, by simp⟩

theorem seg_walk (s : MsgHeap) :
    ∀ (l : List (Nat × wnd_msg_t)) (prev first last : Option Nat),
      Seg s.items prev l first last none →
      queue_walk s l.length first = some (l.map Prod.fst) := by
  intro l
  induction l with
  | nil =>
    intro prev first last h
    obtain ⟨hf, _⟩ := h
    subst hf
    rfl
  | cons x rest ih =>
    obtain ⟨a, msg⟩ := x
    intro prev first last h
    obtain ⟨hf, n, hma, hrest⟩ := h
    subst hf
    simp [queue_walk, hma, ih (some a) n last hrest]

theorem mem_fst_split (l : List (Nat × wnd_msg_t)) (a : Nat) (h : a ∈ l.map Prod.fst) :
    ∃ l1 m l2, l = l1 ++ (a, m) :: l2 := by
  obtain ⟨x, hx, hxa⟩ := List.mem_map.1 h
  obtain ⟨l1, l2, hl⟩ := List.append_of_mem hx
  obtain ⟨c, m⟩ := x
  simp only at hxa
  subst hxa
  exact ⟨l1, m, l2, hl⟩

/-- A well-formed queue in the sense of `QueueRep` satisfies the pointer clauses. -/
theorem queueRep_inv (s : MsgHeap) (l : List (Nat × wnd_msg_t)) (h : QueueRep s l) :
    QueueInv s (l.map Prod.fst) := by
  have hbase := queue_base s l h
  have hlast : s.queue.m_last = lastAddr none l := seg_last _ _ _ _ _ h.seg
  refine ⟨?_, ?_, ?_, ?_, ?_, h.nodup, ?_⟩
  · cases l with
    | nil => rw [hbase, hlast]; simp [firstAddr, lastAddr]
    | cons x rest =>
      obtain ⟨a, msg⟩ := x
      obtain ⟨b, hb, _⟩ := lastAddr_mem ((a, msg) :: rest) none (by simp)
      rw [hbase, hlast, hb]
      simp [firstAddr]
  · intro a ha
    cases l with
    | nil => rw [hbase] at ha; simp [firstAddr] at ha
    | cons x rest =>
      obtain ⟨c, msg⟩ := x
      rw [hbase] at ha
      simp only [firstAddr, Option.some.injEq] at ha
      subst ha
      obtain ⟨_, n, hn, _⟩ := h.seg
      exact ⟨_, hn, rfl⟩
  · intro a ha
    have hl : l ≠ [] := by
      intro hl
      subst hl
      rw [hlast] at ha
      simp [lastAddr] at ha
    obtain ⟨b, itb, hlb, _, hmb, hbn, _⟩ :=
      seg_retarget_end s.items none l none s.queue.m_base s.queue.m_last none h.nodup h.seg hl
    rw [hlb] at ha
    simp only [Option.some.injEq] at ha
    subst ha
    exact ⟨itb, hmb, hbn⟩
  · intro a b ita itb ha hb hia hib
    constructor
    · intro hnext
      obtain ⟨l1, ma, l2, hl⟩ := mem_fst_split l a ha
      subst hl
      have hna := queue_node_at s l1 l2 a ma h
      rw [hia] at hna
      simp only [Option.some.injEq] at hna
      subst hna
      simp only at hnext
      cases l2 with
      | nil => simp [firstAddr] at hnext
      | cons y l2' =>
        obtain ⟨c, mb⟩ := y
        simp only [firstAddr, Option.some.injEq] at hnext
        subst hnext
        have h' : QueueRep s ((l1 ++ [(a, ma)]) ++ (c, mb) :: l2') := by simpa using h
        have hnb := queue_node_at s (l1 ++ [(a, ma)]) l2' c mb h'
        rw [hib] at hnb
        simp only [Option.some.injEq] at hnb
        subst hnb
        exact lastAddr_snoc l1 none a ma
    · intro hprev
      obtain ⟨l1, mb, l2, hl⟩ := mem_fst_split l b hb
      subst hl
      have hnb := queue_node_at s l1 l2 b mb h
      rw [hib] at hnb
      simp only [Option.some.injEq] at hnb
      subst hnb
      simp only at hprev
      obtain ⟨l0, ma, hl0⟩ := lastAddr_some_split l1 a hprev
      subst hl0
      have h' : QueueRep s (l0 ++ (a, ma) :: ((b, mb) :: l2)) := by simpa using h
      have hna := queue_node_at s l0 ((b, mb) :: l2) a ma h'
      rw [hia] at hna
      simp only [Option.some.injEq] at hna
      subst hna
      rfl
  · have := seg_walk s l none s.queue.m_base s.queue.m_last h.seg
    simpa using this
  · rw [hlast, lastAddr_getLast]
    cases (l.map Prod.fst).getLast? <;> rfl

theorem queue_walk_head (s : MsgHeap) (fuel b : Nat) (rest : List Nat)
    (h : queue_walk s fuel (some b) = some rest) : ∃ r, rest = b :: r := by
  cases fuel with
  | zero => simp [queue_walk] at h
  | succ f =>
    simp only [queue_walk] at h
    cases hb : s.items b with
    | none => simp [hb] at h
    | some it =>
      simp only [hb, Option.map_eq_some'] at h
      obtain ⟨r, _, hr⟩ := h
      exact ⟨r, hr.symm⟩

theorem walk_seg (s : MsgHeap) (full : List Nat)
    (hsym : ∀ a b ita itb, a ∈ full → b ∈ full → s.items a = some ita →
      s.items b = some itb → (ita.m_next = some b ↔ itb.m_prev = some a)) :
    ∀ (ns : List Nat) (fuel : Nat) (p prev : Option Nat),
      queue_walk s fuel p = some ns → (∀ x ∈ ns, x ∈ full) →
      (∀ a it, p = some a → s.items a = some it → it.m_prev = prev) →
      Seg s.items prev (ns.map (fun a => (a, msg_at s a))) p
        (lastAddr prev (ns.map (fun a => (a, msg_at s a)))) none := by
  intro ns
  induction ns with
  | nil =>
    intro fuel p prev hwalk _ _
    cases p with
    | none => exact ⟨rfl, rfl⟩
    | some a =>
      obtain ⟨r, hr⟩ := queue_walk_head s fuel a [] hwalk
      cases hr
  | cons a rest ih =>
    intro fuel p prev hwalk hfull hprev
    cases p with
    | none =>
      cases fuel <;> simp [queue_walk] at hwalk
    | some a' =>
      cases fuel with
      | zero => simp [queue_walk] at hwalk
      | succ f =>
        simp only [queue_walk] at hwalk
        cases ha : s.items a' with
        | none => simp [ha] at hwalk
        | some it =>
          simp only [ha, Option.map_eq_some', List.cons.injEq] at hwalk
          obtain ⟨r, hr, haa, hrr⟩ := hwalk
          subst haa hrr
          have hp := hprev a' it rfl ha
          refine ⟨rfl, it.m_next, ?_, ?_⟩
          · rw [ha]
            have hmsg : msg_at s a' = it.m_msg := by simp [msg_at, ha]
            rw [hmsg, ← hp]
          · refine ih f it.m_next (some a') hr
              (fun x hx => hfull x (List.mem_cons_of_mem _ hx)) ?_
            intro b itb hb hib
            rw [hb] at hr
            obtain ⟨r2, hr2⟩ := queue_walk_head s f b r hr
            have hbf : b ∈ full := hfull b (by rw [hr2]; simp)
            exact (hsym a' b it itb (hfull a' (List.mem_cons_self _ _)) hbf ha hib).1 hb

/-- The pointer clauses, with the mutex free, give a well-formed queue in the sense of
`QueueRep`, over the nodes `ns` with the messages they hold. -/
theorem queueInv_rep (s : MsgHeap) (ns : List Nat) (h : QueueInv s ns)
    (hfree : s.queue.m_mutex = false) :
    QueueRep s (ns.map (fun a => (a, msg_at s a))) := by
  have hmap : (ns.map (fun a => (a, msg_at s a))).map Prod.fst = ns := by
    simp [List.map_map, Function.comp_def]
  refine ⟨hfree, by rw [hmap]; exact h.once, ?_⟩
  have hseg := walk_seg s ns h.next_iff_prev ns ns.length s.queue.m_base none h.walk
    (fun x hx => hx) (fun a it ha hia => by
      obtain ⟨it', hit', hp⟩ := h.head_no_prev a ha
      rw [hia] at hit'
      simp only [Option.some.injEq] at hit'
      subst hit'
      exact hp)
  have hlast : lastAddr none (ns.map (fun a => (a, msg_at s a))) = s.queue.m_last := by
    rw [lastAddr_getLast, hmap, h.ends_at_last]
    cases ns.getLast? <;> rfl
  rw [hlast] at hseg
  exact hseg

/-- The pointer clauses (with the mutex free) and `QueueRep` describe the same queues. -/
theorem queueInv_iff_rep (s : MsgHeap) (ns : List Nat) :
    (QueueInv s ns ∧ s.queue.m_mutex = false) ↔
      ∃ l, l.map Prod.fst = ns ∧ QueueRep s l := by
  constructor
  · rintro ⟨h, hfree⟩
    exact ⟨_, by simp [List.map_map, Function.comp_def], queueInv_rep s ns h hfree⟩
  · rintro ⟨l, hl, hrep⟩
    subst hl
    exact ⟨queueRep_inv s l hrep, hrep.mutex_free⟩

/-- C16 (queue well-formedness is an invariant): the pointer clauses of `QueueInv` hold for
the queue made by `wnd_msg_queue_init`, and from a queue that satisfies them for the entries
`ns`, with the mutex free, each of `wnd_msg_send` (into a newly allocated node `a`),
`wnd_msg_rem` (on an entry `a`), `wnd_msg_get` and `wnd_msg_queue_remove_by_window` (given one
unit of fuel per entry) returns and leaves a queue that satisfies them again: for the entries
`ns ++ [a]`, `ns.erase a`, `ns.tail`, and a sublist of `ns`. -/
theorem queue_wellformed_is_invariant :
    (∀ (q : wnd_msg_queue_t) (mem : Nat → Option wnd_msg_queue_item_t),
        wnd_msg_queue_init true = some q →
        QueueInv { queue := q, items := mem } [] ∧ q.m_mutex = false) ∧
    (∀ (s : MsgHeap) (ns : List Nat) (w type : Nat) (data : wnd_msg_data_t) (a : Nat),
        QueueInv s ns → s.queue.m_mutex = false → s.items a = none →
        ∃ s', wnd_msg_send s (some w) type data (some a) = .ok s' ∧
          QueueInv s' (ns ++ [a]) ∧ s'.queue.m_mutex = false) ∧
    (∀ (s : MsgHeap) (ns : List Nat) (a : Nat),
        QueueInv s ns → s.queue.m_mutex = false → a ∈ ns →
        ∃ s', wnd_msg_rem s (some a) = .ok s' ∧
          QueueInv s' (ns.erase a) ∧ s'.queue.m_mutex = false) ∧
    (∀ (s : MsgHeap) (ns : List Nat) (out : wnd_msg_t),
        QueueInv s ns → s.queue.m_mutex = false →
        ∃ r, wnd_msg_get s out = .ok r ∧
          QueueInv r.2.2 ns.tail ∧ (r.1 = false ↔ ns = []) ∧ r.2.2.queue.m_mutex = false) ∧
    (∀ (desc : Option Nat → Option Nat → Bool) (s : MsgHeap) (ns : List Nat) (wnd : Nat)
        (wd : Bool) (fuel : Nat),
        QueueInv s ns → s.queue.m_mutex = false → ns.length ≤ fuel →
        ∃ s' ns', wnd_msg_queue_remove_by_window desc fuel s (some wnd) wd = .ok s' ∧
          QueueInv s' ns' ∧ ns'.Sublist ns ∧ s'.queue.m_mutex = false) := by
  refine ⟨?_, ?_, ?_, ?_, ?_⟩
  · intro q mem hq
    have hrep := queue_init_rep q mem hq
    exact ⟨by simpa using queueRep_inv _ _ hrep, hrep.mutex_free⟩
  · intro s ns w type data a h hfree hfresh
    have hrep := queueInv_rep s ns h hfree
    obtain ⟨s', hsend, hrep', _⟩ := wnd_msg_send_spec s _ w type data a hrep hfresh
    refine ⟨s', hsend, ?_, hrep'.mutex_free⟩
    have := queueRep_inv s' _ hrep'
    simpa [List.map_map, Function.comp_def] using this
  · intro s ns a h hfree ha
    have hrep := queueInv_rep s ns h hfree
    have hmap : (ns.map (fun a => (a, msg_at s a))).map Prod.fst = ns := by
      simp [List.map_map, Function.comp_def]
    obtain ⟨l1, m, l2, hl⟩ := mem_fst_split (ns.map (fun a => (a, msg_at s a))) a
      (by rw [hmap]; exact ha)
    rw [hl] at hrep hmap
    obtain ⟨_, _, ha1, _, _, _⟩ := nodup_split l1 l2 a m hrep.nodup
    obtain ⟨s', hrem, hrep', _⟩ := wnd_msg_rem_spec s l1 l2 a m hrep
    refine ⟨s', hrem, ?_, hrep'.mutex_free⟩
    have hinv := queueRep_inv s' _ hrep'
    have hns : ns.erase a = (l1 ++ l2).map Prod.fst := by
      rw [← hmap]
      simp only [List.map_append, List.map_cons]
      rw [List.erase_append_right _ ha1, List.erase_cons_head]
    rw [hns]
    exact hinv
  · intro s ns out h hfree
    have hrep := queueInv_rep s ns h hfree
    cases ns with
    | nil =>
      refine ⟨(false, out, s), wnd_msg_get_nil s out (queue_base s _ hrep), ?_, by simp, hfree⟩
      simpa using h
    | cons a rest =>
      simp only [List.map_cons] at hrep
      obtain ⟨s', hget, hrep', _⟩ := wnd_msg_get_cons s a _ _ out hrep
      refine ⟨_, hget, ?_, by simp, hrep'.mutex_free⟩
      have := queueRep_inv s' _ hrep'
      simpa [List.map_map, Function.comp_def] using this
  · intro desc s ns wnd wd fuel h hfree hfuel
    have hrep := queueInv_rep s ns h hfree
    have hmap : (ns.map (fun a => (a, msg_at s a))).map Prod.fst = ns := by
      simp [List.map_map, Function.comp_def]
    obtain ⟨s', hrun, hrep', _⟩ := remove_by_window_spec desc s _ wnd wd fuel
      (by simpa using hfuel) hrep
    refine ⟨s', _, hrun, queueRep_inv s' _ hrep', ?_, hrep'.mutex_free⟩
    have hsub := (List.filter_sublist
      (p := fun x : Nat × wnd_msg_t => !purge_match desc (some wnd) wd x.2)
      (ns.map (fun a => (a, msg_at s a)))).map Prod.fst
    rw [hmap] at hsub
    exact hsub

/-- The example queue satisfies the pointer clauses. -/
theorem ex_queue_inv : QueueInv ex_queue [10, 11, 12, 13] :=
  queueRep_inv ex_queue ex_nodes ex_queue_rep

/-- C16 at the example queue: removal of the inner entry 12. -/
theorem queue_wellformed_is_invariant_witness :
    QueueInv ex_queue [10, 11, 12, 13] ∧
    ∃ s', wnd_msg_rem ex_queue (some 12) = .ok s' ∧
      QueueInv s' ([10, 11, 12, 13].erase 12) ∧ s'.queue.m_mutex = false :=
  ⟨ex_queue_inv,
    queue_wellformed_is_invariant.2.2.1 ex_queue [10, 11, 12, 13] 12 ex_queue_inv rfl
      (by decide)⟩

/-! ### Queue accesses and the lock -/

theorem except_map_eq {α β : Type} (f : α → β) (x : Except Fault α) :
    x.map f = x >>= fun a => pure (f a) := by
  cases x <;> rfl

theorem except_ite_bind {α β : Type} (c : Prop) [Decidable c] (a b : Except Fault α)
    (f : α → Except Fault β) :
    (if c then a else b) >>= f = if c then a >>= f else b >>= f := by
  split_ifs <;> rfl

theorem except_ok_bind {α β : Type} (a : α) (f : α → Except Fault β) :
    (Except.ok a : Except Fault α) >>= f = f a := rfl

/-- The recorded `wnd_msg_rem` is `wnd_msg_rem`, with the unlinking recorded under the lock. -/
theorem wnd_msg_rem_traced_eq (s : MsgHeap) (item : Option Nat) :
    wnd_msg_rem_traced s item
      = (wnd_msg_rem s item).map (fun s' => (s', [(QueueAccess.unlink item, true)])) := by
  rw [except_map_eq]
  unfold wnd_msg_rem_traced wnd_msg_rem
  by_cases hi : item = none
  · simp [hi, bind, Except.bind, throw, throwThe, MonadExceptOf.throw]
  · by_cases hm : s.queue.m_mutex = true
    · simp [hi, hm, wnd_msg_lock_queue, bind, Except.bind, pure, Except.pure]
    · simp only [hi, if_false, wnd_msg_lock_queue, hm, pure_bind, bind_assoc]
      simp only [Bool.false_eq_true, if_false, except_ok_bind, except_ite_bind, bind_assoc]

theorem wnd_msg_get_traced_erase (s : MsgHeap) (msg : wnd_msg_t) :
    (wnd_msg_get_traced s msg).map Prod.fst = wnd_msg_get s msg := by
  unfold wnd_msg_get_traced wnd_msg_get
  by_cases hb : s.queue.m_base = none
  · simp [hb, Except.map, pure, Except.pure]
  · simp only [hb, if_false, pure_bind, wnd_msg_rem_traced_eq]
    cases item_load s s.queue.m_base with
    | error e => rfl
    | ok it =>
      cases wnd_msg_rem s s.queue.m_base with
      | error e => rfl
      | ok s' => rfl

theorem remove_by_window_loop_traced_erase (desc : Option Nat → Option Nat → Bool)
    (wnd : Option Nat) (wd : Bool) :
    ∀ (fuel : Nat) (s : MsgHeap) (item : Option Nat),
      (remove_by_window_loop_traced desc wnd wd fuel s item).map Prod.fst
        = remove_by_window_loop desc wnd wd fuel s item := by
  intro fuel
  induction fuel with
  | zero =>
    intro s item
    cases item <;> rfl
  | succ f ih =>
    intro s item
    cases item with
    | none => rfl
    | some a =>
      unfold remove_by_window_loop_traced remove_by_window_loop
      simp only [wnd_msg_rem_traced_eq]
      cases item_load s (some a) with
      | error e => rfl
      | ok it =>
        simp only [except_ok_bind]
        split_ifs with hm hp
        · cases wnd_msg_rem s (some a) with
          | error e => rfl
          | ok s1 =>
            simp only [Except.map, except_ok_bind]
            rw [← ih s1 s1.queue.m_base]
            cases remove_by_window_loop_traced desc wnd wd f s1 s1.queue.m_base <;> rfl
        · cases wnd_msg_rem s (some a) with
          | error e => rfl
          | ok s1 =>
            simp only [Except.map, except_ok_bind]
            cases item_load s1 it.m_prev with
            | error e => rfl
            | ok p =>
              simp only [except_ok_bind]
              rw [← ih s1 p.m_next]
              cases remove_by_window_loop_traced desc wnd wd f s1 p.m_next <;> rfl
        · rw [← ih s it.m_next]
          cases remove_by_window_loop_traced desc wnd wd f s it.m_next <;> rfl

theorem wnd_msg_queue_remove_by_window_traced_erase (desc : Option Nat → Option Nat → Bool)
    (fuel : Nat) (s : MsgHeap) (wnd : Option Nat) (wd : Bool) :
    (wnd_msg_queue_remove_by_window_traced desc fuel s wnd wd).map Prod.fst
      = wnd_msg_queue_remove_by_window desc fuel s wnd wd := by
  unfold wnd_msg_queue_remove_by_window_traced wnd_msg_queue_remove_by_window
  by_cases hw : wnd = none
  · simp [hw, bind, Except.bind, throw, throwThe, MonadExceptOf.throw, Except.map]
  · simp only [hw, if_false, pure_bind]
    exact remove_by_window_loop_traced_erase desc wnd wd fuel s _

/-- C13 (queue accesses happen under the lock), the code at a failing input.  The recorded
functions are the functions of the model with their accesses written down (first three
parts).  On the four-entry queue `ex_queue`, entered with the mutex free, `wnd_msg_get` makes
the emptiness test and the copy of the head message with the mutex free, and only the
unlinking with the mutex held; `wnd_msg_queue_remove_by_window(queue, 1, false)` scans every
entry and reads on after every eviction with the mutex free, and only the evictions are made
with the mutex held.  Entered with the mutex held, `wnd_msg_get` stops in `wnd_msg_rem` at the
second lock of the mutex. -/
theorem queue_reads_outside_lock :
    (∀ s msg, (wnd_msg_get_traced s msg).map Prod.fst = wnd_msg_get s msg) ∧
    (∀ desc fuel s wnd wd,
      (wnd_msg_queue_remove_by_window_traced desc fuel s wnd wd).map Prod.fst
        = wnd_msg_queue_remove_by_window desc fuel s wnd wd) ∧
    (∀ s item, (wnd_msg_rem_traced s item).map Prod.fst = wnd_msg_rem s item) ∧
    (wnd_msg_get_traced ex_queue (ex_msg 0 0)).map Prod.snd
      = .ok [(QueueAccess.emptiness_test, false), (QueueAccess.copy_head (some 10), false),
          (QueueAccess.unlink (some 10), true)] ∧
    (wnd_msg_queue_remove_by_window_traced (fun _ _ => false) 4 ex_queue (some 1) false).map
        Prod.snd
      = .ok [(QueueAccess.scan (some 10), false), (QueueAccess.unlink (some 10), true),
          (QueueAccess.next_after_eviction, false),
          (QueueAccess.scan (some 11), false), (QueueAccess.unlink (some 11), true),
          (QueueAccess.next_after_eviction, false),
          (QueueAccess.scan (some 12), false),
          (QueueAccess.scan (some 13), false), (QueueAccess.unlink (some 13), true),
          (QueueAccess.next_after_eviction, false)] ∧
    wnd_msg_get ex_queue_locked (ex_msg 0 0) = .error Fault.deadlock := by
  refine ⟨wnd_msg_get_traced_erase, wnd_msg_queue_remove_by_window_traced_erase, ?_, rfl, rfl,
    rfl⟩
  intro s item
  rw [wnd_msg_rem_traced_eq]
  cases wnd_msg_rem s item <;> rfl

end Mpfc
